import Mathlib

/-!
Shallow embedding of the libpolymc launcher core (crate `polymc`):
hash/coordinate parsing (`src/polymc/src/meta/manifest.rs`), the verifier,
the resolver (`src/polymc/src/meta/mod.rs`), natives extraction
(`src/polymc/src/instance.rs`) and the launch argv assembly
(`src/polymc/src/java_wrapper.rs`), together with proofs about the
properties stated for them.

Rust strings are modelled as Lean `String`s; `HashMap` fields are modelled
as association lists; filesystem access is modelled by a map from a path to
the state of the file there, where a readable file is represented by the
SHA-1 digest of its contents (the streaming SHA-1 computation of the source
is abstracted to that digest).  `Rc<UnsafeCell<bool>>` verification flags
are modelled as `Bool` fields threaded through state updates.
-/

set_option maxRecDepth 4000

namespace LibPolyMC

/-- The error enum of `src/polymc/src/error.rs`; payloads are elided since no
code path inspects them. -/
inductive Error where
  | ioErr
  | jsonErr
  | fromHex
  | fromUtf8
  | libraryInvalidName
  | libraryNotSupported
  | libraryMissing
  | libraryInvalidHash
  | metaNotFound
deriving DecidableEq, Repr

/-- Value of a hex digit, accepting both cases, as the `hex` crate does. -/
def hexVal (c : Char) : Option Nat :=
  if '0' ≤ c ∧ c ≤ '9' then some (c.toNat - '0'.toNat)
  else if 'a' ≤ c ∧ c ≤ 'f' then some (c.toNat - 'a'.toNat + 10)
  else if 'A' ≤ c ∧ c ≤ 'F' then some (c.toNat - 'A'.toNat + 10)
  else none

/-- `hex::decode` on a character list: consumes two hex digits per output
byte; fails on an odd length or a non-hex character.  (The two failure kinds
of the `hex` crate are not distinguished because `Error::FromHex` absorbs
both.) -/
def hexDecodeList : List Char → Option (List Nat)
  | [] => some []
  | [_] => none
  | a :: b :: rest =>
    match hexVal a, hexVal b, hexDecodeList rest with
    | some x, some y, some r => some ((16 * x + y) :: r)
    | _, _, _ => none

/-- `hex::decode` over a string. -/
def hexDecode (s : String) : Option (List Nat) := hexDecodeList s.data

/-- Lower-case hex digit for a value below 16, as `hex::encode` emits. -/
def hexDigitLower (n : Nat) : Char :=
  if n < 10 then Char.ofNat ('0'.toNat + n) else Char.ofNat ('a'.toNat + (n - 10))

/-- `hex::encode` of one byte. -/
def hexEncodeByte (n : Nat) : List Char := [hexDigitLower (n / 16 % 16), hexDigitLower (n % 16)]

/-- `hex::encode`: lower-case hex of a byte list. -/
def hexEncode (bytes : List Nat) : String := ⟨(bytes.map hexEncodeByte).flatten⟩

/-- A character of the claim's `[0-9a-f]` set (lower-case hex). -/
def isLowerHexDigit (c : Char) : Bool := ('0' ≤ c && c ≤ '9') || ('a' ≤ c && c ≤ 'f')

/-- A character accepted by `hex::decode` (either case). -/
def isHexDigit (c : Char) : Bool :=
  ('0' ≤ c && c ≤ '9') || ('a' ≤ c && c ≤ 'f') || ('A' ≤ c && c ≤ 'F')

/-- `Sha1Sum`: a 20-byte digest (`manifest.rs`).  The length invariant is
kept as a side condition of the parser rather than in the type. -/
structure Sha1Sum where
  bytes : List Nat
deriving DecidableEq, Repr

/-- `Sha1Sum::from_str`: `hex::decode`, then insist on 20 bytes. -/
def Sha1Sum.from_str (s : String) : Except Error Sha1Sum :=
  match hexDecode s with
  | none => .error .fromHex
  | some bs => if bs.length ≠ 20 then .error .libraryInvalidHash else .ok ⟨bs⟩

/-- `Display for Sha1Sum`: `hex::encode` of the bytes. -/
def Sha1Sum.display (h : Sha1Sum) : String := hexEncode h.bytes

/-- `Sha256Sum`: a 32-byte digest. -/
structure Sha256Sum where
  bytes : List Nat
deriving DecidableEq, Repr

/-- `Sha256Sum::from_str`: `hex::decode`, then insist on 32 bytes. -/
def Sha256Sum.from_str (s : String) : Except Error Sha256Sum :=
  match hexDecode s with
  | none => .error .fromHex
  | some bs => if bs.length ≠ 32 then .error .libraryInvalidHash else .ok ⟨bs⟩

/-- `Display for Sha256Sum`. -/
def Sha256Sum.display (h : Sha256Sum) : String := hexEncode h.bytes

/-- Rust `str::split(sep)` on a character list: always returns at least one
(possibly empty) group. -/
def splitChar (sep : Char) : List Char → List (List Char)
  | [] => [[]]
  | c :: rest =>
    match splitChar sep rest with
    | [] => [[c]]
    | g :: gs => if c = sep then [] :: g :: gs else (c :: g) :: gs

/-- Join character groups with a separator (inverse of `splitChar`). -/
def joinChar (sep : Char) : List (List Char) → List Char
  | [] => []
  | [g] => g
  | g :: gs => g ++ sep :: joinChar sep gs

/-- `Vec::join` / `slice::join` for strings. -/
def joinString (sep : String) : List String → String
  | [] => ""
  | [x] => x
  | x :: xs => x ++ sep ++ joinString sep xs

/-- `PathBuf::push` on Unix, at the character level: an absolute path
replaces the buffer; otherwise a `/` separator is inserted unless the buffer
is empty or already ends in `/`. -/
def pushChars (self s : List Char) : List Char :=
  if s.head? = some '/' then s
  else if self = [] then s
  else if self.getLast? = some '/' then self ++ s
  else self ++ '/' :: s

/-- `PathBuf::push` over the displayed path string. -/
def pathPush (self seg : String) : String := ⟨pushChars self.data seg.data⟩

/-- First value for a key in an association list (`HashMap::get`; keys are
unique in a `HashMap`, so first-match is exact). -/
def alistGet {α : Type} (k : String) : List (String × α) → Option α
  | [] => none
  | (k', v) :: rest => if k' = k then some v else alistGet k rest

/-- `HashMap::insert`: replace the value of an existing key, else add the
binding. -/
def alistInsert {α : Type} (k : String) (v : α) : List (String × α) → List (String × α)
  | [] => [(k, v)]
  | (k', v') :: rest => if k' = k then (k, v) :: rest else (k', v') :: alistInsert k v rest

/-- `LibraryName` (`manifest.rs`): Maven-style coordinate.  `namespace` is a
Lean keyword, hence the trailing underscore. -/
structure LibraryName where
  namespace_ : String
  name : String
  version : String
  extra_versions : List String
deriving DecidableEq, Repr

/-- `LibraryName::from_str`: split on `:`; fewer than 3 parts is
`LibraryInvalidName`; parts beyond the third become `extra_versions`.
(The source checks `len < 3` and then indexes parts 0,1,2 and `3..`; the
match below is the same case split.) -/
def LibraryName.from_str (s : String) : Except Error LibraryName :=
  match (splitChar ':' s.data).map (fun l => (⟨l⟩ : String)) with
  | a :: b :: c :: rest => .ok ⟨a, b, c, rest⟩
  | _ => .error .libraryInvalidName

/-- `Display for LibraryName`: the parts joined with `:`. -/
def LibraryName.display (n : LibraryName) : String :=
  if n.extra_versions ≠ [] then
    n.namespace_ ++ ":" ++ n.name ++ ":" ++ n.version ++ ":" ++ joinString ":" n.extra_versions
  else
    n.namespace_ ++ ":" ++ n.name ++ ":" ++ n.version

/-- `LibraryName::base_path_at`: push each `.`-split component of the
namespace, then the name, then the version. -/
def LibraryName.base_path_at (n : LibraryName) (path : String) : String :=
  let p := (splitChar '.' n.namespace_.data).foldl (fun acc seg => pathPush acc ⟨seg⟩) path
  pathPush (pathPush p n.name) n.version

/-- The jar file name `name-version[-extras].jar` of `LibraryName::path_at`. -/
def LibraryName.jarName (n : LibraryName) : String :=
  if n.extra_versions ≠ [] then
    n.name ++ "-" ++ n.version ++ "-" ++ joinString "-" n.extra_versions ++ ".jar"
  else
    n.name ++ "-" ++ n.version ++ ".jar"

/-- `LibraryName::path_at`. -/
def LibraryName.path_at (n : LibraryName) (path : String) : String :=
  pathPush (n.base_path_at path) n.jarName

/-- The jar file name `name-version[-extras]-natives.jar` of
`LibraryName::path_at_natives`. -/
def LibraryName.jarNameNatives (n : LibraryName) (natives : String) : String :=
  if n.extra_versions ≠ [] then
    n.name ++ "-" ++ n.version ++ "-" ++ joinString "-" n.extra_versions ++ "-" ++ natives ++ ".jar"
  else
    n.name ++ "-" ++ n.version ++ "-" ++ natives ++ ".jar"

/-- `LibraryName::path_at_natives`. -/
def LibraryName.path_at_natives (n : LibraryName) (path natives : String) : String :=
  pathPush (n.base_path_at path) (n.jarNameNatives natives)

/-- The path the specification's words prescribe for `path_at("")`:
`<namespace with '.'→'/'>/<name>/<version>/<name>-<version>[-<extras>].jar`,
stated verbatim for comparison with the source's `path_at`. -/
def LibraryName.specPathAt (n : LibraryName) : String :=
  (⟨n.namespace_.data.map (fun c => if c = '.' then '/' else c)⟩ : String)
    ++ "/" ++ n.name ++ "/" ++ n.version ++ "/" ++ n.jarName

/-- `RuleAction` (`manifest.rs`). -/
inductive RuleAction where
  | allow
  | disallow
deriving DecidableEq, Repr

/-- `OS`: host platform name (plus unused version). -/
structure OS where
  name : String
  version : Option String
deriving DecidableEq, Repr

/-- `Rule`: an action together with an OS matcher. -/
structure Rule where
  action : RuleAction
  os : OS
deriving DecidableEq, Repr

/-- `LibraryDownload`: url/size/sha1 of one artifact. -/
structure LibraryDownload where
  sha1 : Sha1Sum
  size : Int
  url : String
deriving DecidableEq, Repr

/-- `LibraryDownloads`: the main artifact plus classifier artifacts. -/
structure LibraryDownloads where
  artifact : LibraryDownload
  classifiers : List (String × LibraryDownload)
deriving DecidableEq, Repr

/-- `ExtractOptions`: natives-extraction exclusion list. -/
structure ExtractOptions where
  exclude : List String
deriving DecidableEq, Repr

/-- `Library` (`manifest.rs`).  The `verified: Rc<UnsafeCell<bool>>` session
flag is modelled as a `Bool` field; functions that set it return the updated
value. -/
structure Library where
  name : LibraryName
  downloads : LibraryDownloads
  natives : List (String × String)
  extract : Option ExtractOptions
  rules : List Rule
  verified : Bool
deriving DecidableEq, Repr

/-- `Library::required_for`: empty rules mean required everywhere; otherwise
scan the rules, and the first `allow` rule (dis)matches the host; `disallow`
rules are never consulted by the loop. -/
def Library.required_for (lib : Library) (platform : OS) : Bool :=
  if lib.rules = [] then true
  else lib.rules.foldl
    (fun allow r =>
      if r.action = RuleAction.allow ∧ allow = false then decide (r.os.name = platform.name)
      else allow)
    false

/-- `Library::select_for`: a natives entry for the host selects a
classifier, otherwise the plain artifact. -/
def Library.select_for (lib : Library) (os : OS) : Option LibraryDownload :=
  match alistGet os.name lib.natives with
  | some cname => alistGet cname lib.downloads.classifiers
  | none => some lib.downloads.artifact

/-- `Library::path_at_for`: natives classifier path when the host has one,
else the plain path. -/
def Library.path_at_for (lib : Library) (path : String) (platform : OS) : String :=
  match alistGet platform.name lib.natives with
  | some cname => lib.name.path_at_natives path cname
  | none => lib.name.path_at path

/-- State of one path of the filesystem: absent, readable with the given
content digest, or failing with an I/O error when opened or read. -/
inductive FileState where
  | missing
  | okFile (digest : Sha1Sum)
  | readError
deriving DecidableEq, Repr

/-- The filesystem as seen by the verifier. -/
def FS : Type := String → FileState

/-- `Library::verify_at`: select the artifact (else `LibraryNotSupported`),
check presence (else `LibraryMissing`), read and hash the file (I/O errors
propagate), compare digests (else `LibraryInvalidHash`). -/
def Library.verify_at (lib : Library) (fs : FS) (at_ : String) (platform : OS) :
    Except Error Unit :=
  match lib.select_for platform with
  | none => .error .libraryNotSupported
  | some artifact =>
    match fs (lib.path_at_for at_ platform) with
    | .missing => .error .libraryMissing
    | .readError => .error .ioErr
    | .okFile digest =>
      if digest = artifact.sha1 then .ok () else .error .libraryInvalidHash

/-- `Asset` (`asset.rs`), with the session `verified` flag as data. -/
structure Asset where
  hash : Sha1Sum
  size : Int
  verified : Bool
deriving DecidableEq, Repr

/-- `Asset::path_at`: `<at>/objects/<first byte hex>/<full hex>`. -/
def Asset.path_at (a : Asset) (at_ : String) : String :=
  pathPush (pathPush (pathPush at_ "objects") (hexEncode (a.hash.bytes.take 1)))
    (hexEncode a.hash.bytes)

/-- `Asset::verify_at`. -/
def Asset.verify_at (a : Asset) (fs : FS) (at_ : String) : Except Error Unit :=
  match fs (a.path_at at_) with
  | .missing => .error .libraryMissing
  | .readError => .error .ioErr
  | .okFile digest => if digest = a.hash then .ok () else .error .libraryInvalidHash

/-- `Asset::verify_caching_at`: skip when already verified, else verify and
set the flag on success. -/
def Asset.verify_caching_at (a : Asset) (fs : FS) (at_ : String) :
    Except Error Unit × Asset :=
  if a.verified then (.ok (), a)
  else
    match a.verify_at fs at_ with
    | .error e => (.error e, a)
    | .ok _ => (.ok (), { a with verified := true })

/-- `AssetIndex`: the content map, keyed by logical name. -/
structure AssetIndex where
  objects : List (String × Asset)
deriving DecidableEq, Repr

/-- The loop body of `AssetIndex::verify_caching_at` over the object list:
collect `LibraryMissing`/`LibraryInvalidHash` failures, stop at any other
error (assets after the stop are left untouched), and thread flag updates. -/
def assetsVerifyCaching (fs : FS) (at_ : String) :
    List (String × Asset) → Except Error (List (Asset × Error)) × List (String × Asset)
  | [] => (.ok [], [])
  | (k, a) :: rest =>
    match a.verify_caching_at fs at_ with
    | (.ok _, a') =>
      let (res, rest') := assetsVerifyCaching fs at_ rest
      (res, (k, a') :: rest')
    | (.error e, a') =>
      match e with
      | .libraryMissing | .libraryInvalidHash =>
        let (res, rest') := assetsVerifyCaching fs at_ rest
        (match res with
         | .ok l => .ok ((a', e) :: l)
         | .error e' => .error e', (k, a') :: rest')
      | _ => (.error e, (k, a') :: rest)

/-- `AssetIndex::verify_caching_at`. -/
def AssetIndex.verify_caching_at (idx : AssetIndex) (fs : FS) (at_ : String) :
    Except Error (List (Asset × Error)) × AssetIndex :=
  let (res, objects') := assetsVerifyCaching fs at_ idx.objects
  (res, ⟨objects'⟩)

/-- `AssetIndexInfo` (`asset.rs`): pointer to an asset index plus its parsed
cache. -/
structure AssetIndexInfo where
  id : String
  sha1 : Sha1Sum
  size : Int
  total_size : Int
  url : String
  cache : Option AssetIndex
deriving DecidableEq, Repr

/-- `Requirement` (`manifest.rs`).  In the source `suggests` is declared
`Option<String>` while `From<Requirement> for Wants` moves it directly into
the `String`-typed `Wants::version`; the conversion's type is followed here,
so `suggests` is a `String`. -/
structure Requirement where
  equals : Option String
  suggests : String
  uid : String
deriving DecidableEq, Repr

/-- `Manifest` (`manifest.rs`). -/
structure Manifest where
  traits : List String
  asset_index : Option AssetIndexInfo
  libraries : List Library
  main_class : Option String
  main_jar : Option Library
  minecraft_arguments : Option String
  name : String
  order : Int
  release_time : String
  requires : List Requirement
  release_type : String
  uid : String
  version : String
deriving DecidableEq, Repr

/-- The library loop of `Manifest::verify_at` (no caching): verify each
required library, collecting `LibraryMissing`/`LibraryInvalidHash` failures
and aborting on any other error. -/
def libsVerify (fs : FS) (path : String) (os : OS) :
    List Library → Except Error (List (Library × Error))
  | [] => .ok []
  | lib :: rest =>
    if lib.required_for os then
      match lib.verify_at fs path os with
      | .ok _ => libsVerify fs path os rest
      | .error e =>
        match e with
        | .libraryMissing | .libraryInvalidHash =>
          (libsVerify fs path os rest).map (fun l => (lib, e) :: l)
        | _ => .error e
    else libsVerify fs path os rest

/-- `Manifest::verify_at`: the library loop, then the optional `main_jar`
(verified regardless of its rules). -/
def Manifest.verify_at (m : Manifest) (fs : FS) (path : String) (os : OS) :
    Except Error (List (Library × Error)) :=
  match libsVerify fs path os m.libraries with
  | .error e => .error e
  | .ok fails =>
    match m.main_jar with
    | none => .ok fails
    | some jar =>
      match jar.verify_at fs path os with
      | .ok _ => .ok fails
      | .error e =>
        match e with
        | .libraryMissing | .libraryInvalidHash => .ok (fails ++ [(jar, e)])
        | _ => .error e

/-- The library loop of `Manifest::verify_caching_at`: like `libsVerify`
but skipping already-verified libraries, setting the flag on success, and
returning the updated library list (libraries after a fatal stop are left
untouched). -/
def libsVerifyCaching (fs : FS) (path : String) (os : OS) :
    List Library → Except Error (List (Library × Error)) × List Library
  | [] => (.ok [], [])
  | lib :: rest =>
    if ¬lib.verified ∧ lib.required_for os then
      match lib.verify_at fs path os with
      | .ok _ =>
        let (res, rest') := libsVerifyCaching fs path os rest
        (res, { lib with verified := true } :: rest')
      | .error e =>
        match e with
        | .libraryMissing | .libraryInvalidHash =>
          let (res, rest') := libsVerifyCaching fs path os rest
          (match res with
           | .ok l => .ok ((lib, e) :: l)
           | .error e' => .error e', lib :: rest')
        | _ => (.error e, lib :: rest)
    else
      let (res, rest') := libsVerifyCaching fs path os rest
      (res, lib :: rest')

/-- `Manifest::verify_caching_at`: the caching library loop, then the
optional `main_jar` (skipped when its flag is set; the flag check does not
consult `required_for`). -/
def Manifest.verify_caching_at (m : Manifest) (fs : FS) (path : String) (os : OS) :
    Except Error (List (Library × Error)) × Manifest :=
  let (res, libs') := libsVerifyCaching fs path os m.libraries
  let m1 := { m with libraries := libs' }
  match res with
  | .error e => (.error e, m1)
  | .ok fails =>
    match m.main_jar with
    | none => (.ok fails, m1)
    | some jar =>
      if ¬jar.verified then
        match jar.verify_at fs path os with
        | .ok _ => (.ok fails, { m1 with main_jar := some { jar with verified := true } })
        | .error e =>
          match e with
          | .libraryMissing | .libraryInvalidHash => (.ok (fails ++ [(jar, e)]), m1)
          | _ => (.error e, m1)
      else (.ok fails, m1)

/-- `Manifest::assets_path_at`: `<at>/indexes/<id>.json` when an asset index
is declared. -/
def Manifest.assets_path_at (m : Manifest) (at_ : String) : Option String :=
  match m.asset_index with
  | none => none
  | some idx => some (pathPush (pathPush at_ "indexes") (idx.id ++ ".json"))

/-- `PackageVersion` (`index.rs`): one version entry of a package index,
annotated with its manifest once loaded. -/
structure PackageVersion where
  release_time : String
  requires : List Requirement
  sha256 : Sha256Sum
  release_type : Option String
  version : String
  manifest : Option Manifest
deriving DecidableEq, Repr

/-- `PackageIndex` (`index.rs`). -/
structure PackageIndex where
  format_version : Nat
  name : String
  uid : String
  versions : List PackageVersion
deriving DecidableEq, Repr

/-- `PackageIndex::find_version`: first entry with the version, else
`MetaNotFound`. -/
def PackageIndex.find_version (idx : PackageIndex) (version : String) :
    Except Error PackageVersion :=
  match idx.versions.find? (fun v => v.version = version) with
  | some v => .ok v
  | none => .error .metaNotFound

/-- `MetaIndexPackage` (`index.rs`), annotated with its package index once
loaded. -/
structure MetaIndexPackage where
  name : String
  sha256 : Sha256Sum
  uid : String
  index : Option PackageIndex
deriving DecidableEq, Repr

/-- `MetaIndex` (`index.rs`). -/
structure MetaIndex where
  format_version : Nat
  packages : List MetaIndexPackage
deriving DecidableEq, Repr

/-- `MetaIndex::get_uid`: first package with the uid, else `MetaNotFound`. -/
def MetaIndex.get_uid (idx : MetaIndex) (uid : String) : Except Error MetaIndexPackage :=
  match idx.packages.find? (fun p => p.uid = uid) with
  | some p => .ok p
  | none => .error .metaNotFound

/-- `Wants` (`meta/mod.rs`). -/
structure Wants where
  uid : String
  version : String
  release_type : Option String
deriving DecidableEq, Repr

/-- `From<Requirement> for Wants`. -/
def Wants.ofRequirement (r : Requirement) : Wants :=
  { uid := r.uid, version := r.suggests, release_type := none }

/-- `DownloadRequest` (`request.rs`). -/
inductive DownloadRequest where
  | metaIndexReq (url : String)
  | indexReq (url uid : String) (hash : Sha256Sum)
  | manifestReq (url version uid : String) (hash : Sha256Sum)
  | libraryReq (path : String) (download : LibraryDownload)
  | assetIndexReq (uid version : String) (info : AssetIndexInfo) (path : String)
  | assetReq (asset : Asset) (uid url path : String)
deriving DecidableEq, Repr

/-- `DownloadRequest::new_package_index`. -/
def DownloadRequest.new_package_index (base_url : String) (package : MetaIndexPackage) :
    DownloadRequest :=
  .indexReq (base_url ++ "/" ++ package.uid ++ "/index.json") package.uid package.sha256

/-- `DownloadRequest::new_package_manifest`. -/
def DownloadRequest.new_package_manifest (base_url uid : String) (package : PackageVersion) :
    DownloadRequest :=
  .manifestReq (base_url ++ "/" ++ uid ++ "/" ++ package.version ++ ".json")
    package.version uid package.sha256

/-- Tag check `DownloadRequest::is_library`. -/
def DownloadRequest.is_library : DownloadRequest → Bool
  | .libraryReq _ _ => true
  | _ => false

/-- Tag check `DownloadRequest::is_asset`. -/
def DownloadRequest.is_asset : DownloadRequest → Bool
  | .assetReq _ _ _ _ => true
  | _ => false

/-- `SearchResult` (`meta/mod.rs`). -/
structure SearchResult where
  requests : List DownloadRequest
  manifests : List (String × Manifest)
  uid : String
deriving DecidableEq, Repr

/-- `ASSET_DEFAULT_URL`. -/
def ASSET_DEFAULT_URL : String := "https://resources.download.minecraft.net"

/-- `MetaManager` (`meta/mod.rs`). -/
structure MetaManager where
  library_path : String
  assets_path : String
  base_url : String
  assets_url : Option String
  wants : List Wants
  extra_wants : List Wants
  manifests : List (String × Manifest)
  index : Option MetaIndex
deriving DecidableEq, Repr

/-- `MetaManager::get_assets_url`. -/
def MetaManager.get_assets_url (st : MetaManager) : String :=
  match st.assets_url with
  | some url => url
  | none => ASSET_DEFAULT_URL

/-- `MetaManager::index_url`. -/
def MetaManager.index_url (st : MetaManager) : String := st.base_url ++ "/index.json"

/-- `MetaManager::check_requirements`: walk the requirement list, pushing a
`Wants` for each requirement; finding a requirement whose uid is already in
`wants` or `extra_wants` makes the source `return ret`, which discards every
later requirement (translated here as ending the recursion). -/
def check_requirements (wants extra_wants : List Wants) :
    List Requirement → List Wants
  | [] => []
  | req :: rest =>
    if wants.any (fun w => w.uid = req.uid) || extra_wants.any (fun w => w.uid = req.uid) then
      []
    else
      Wants.ofRequirement req :: check_requirements wants extra_wants rest

/-- Setting a version's manifest inside a version list (the write baked into
`PackageIndex::find_version_mut`: first matching entry). -/
def setManifestVersions (version : String) (m : Manifest) :
    List PackageVersion → List PackageVersion
  | [] => []
  | v :: rest =>
    if v.version = version then { v with manifest := some m } :: rest
    else v :: setManifestVersions version m rest

/-- Setting a version's manifest inside a package list (the write baked into
`MetaIndex::get_uid_mut`: first matching entry). -/
def setManifestPackages (uid version : String) (m : Manifest) :
    List MetaIndexPackage → List MetaIndexPackage
  | [] => []
  | p :: rest =>
    if p.uid = uid then
      { p with
        index := p.index.map (fun pi => { pi with
          versions := setManifestVersions version m pi.versions }) } :: rest
    else p :: setManifestPackages uid version m rest

/-- The `DownloadRequest::new_library` loop of `search_for`: each failed
library is turned into a request, with `select_for` failure surfacing as
`MetaNotFound` (the source's `ok_or`). -/
def requestsOfFails (library_path : String) (os : OS) :
    List (Library × Error) → Except Error (List DownloadRequest)
  | [] => .ok []
  | (lib, _e) :: rest =>
    match lib.select_for os with
    | none => .error .metaNotFound
    | some d =>
      (requestsOfFails library_path os rest).map
        (fun l => .libraryReq (lib.path_at_for library_path os) d :: l)

/-- The asset download URL built in `search_for`:
`<assets url>/<first byte hex>/<full hex>`. -/
def assetUrl (st : MetaManager) (a : Asset) : String :=
  st.get_assets_url ++ "/" ++ hexEncode (a.hash.bytes.take 1) ++ "/" ++ hexEncode a.hash.bytes

/-- Write the session-flag updates of a verified manifest back into the
state: into the registry index at the searched `(uid, version)` slot — in
the source the flags live in `Rc<UnsafeCell<_>>` cells owned by the manifest
stored there — and into the `manifests` map, whose clones share those
cells. -/
def MetaManager.writeBack (st : MetaManager) (idx : MetaIndex) (w : Wants) (m : Manifest) :
    MetaManager :=
  { st with
    index := some { idx with packages := setManifestPackages w.uid w.version m idx.packages }
    manifests := alistInsert m.uid m st.manifests }

/-- `MetaManager::search_for` (`meta/mod.rs` lines 123–196).  The state is
threaded explicitly; an error result carries the state as mutated up to the
point of the early return, matching the `&mut self` receiver.  The
`self.index.as_ref().unwrap()` of the source can only be reached with a
loaded index (`continue_search` checks it); the unreachable `none` branch is
mapped to `MetaNotFound`. -/
def MetaManager.search_for (st : MetaManager) (os : OS) (w : Wants) (fs : FS) :
    Except Error (List DownloadRequest) × MetaManager :=
  match st.index with
  | none => (.error .metaNotFound, st)
  | some idx =>
    match idx.get_uid w.uid with
    | .error e => (.error e, st)
    | .ok pkg =>
      match pkg.index with
      | none => (.ok [DownloadRequest.new_package_index st.base_url pkg], st)
      | some pidx =>
        match pidx.find_version w.version with
        | .error e => (.error e, st)
        | .ok ver =>
          let st1 := { st with extra_wants :=
            st.extra_wants ++ check_requirements st.wants st.extra_wants ver.requires }
          match ver.manifest with
          | none =>
            (.ok [DownloadRequest.new_package_manifest st1.base_url pkg.uid ver], st1)
          | some m =>
            let st2 := { st1 with extra_wants :=
              st1.extra_wants ++ check_requirements st1.wants st1.extra_wants m.requires }
            let st3 := { st2 with manifests := alistInsert m.uid m st2.manifests }
            match m.verify_caching_at fs st3.library_path os with
            | (.error e, m1) => (.error e, st3.writeBack idx w m1)
            | (.ok fails, m1) =>
              match requestsOfFails st3.library_path os fails with
              | .error e => (.error e, st3.writeBack idx w m1)
              | .ok ret =>
                match m.asset_index with
                | none => (.ok ret, st3.writeBack idx w m1)
                | some ainfo =>
                  match ainfo.cache with
                  | none =>
                    match m.assets_path_at st3.assets_path with
                    | none => (.error .metaNotFound, st3.writeBack idx w m1)
                    | some apath =>
                      (.ok (ret ++ [.assetIndexReq m.uid m.version ainfo apath]),
                        st3.writeBack idx w m1)
                  | some aidx =>
                    match aidx.verify_caching_at fs st3.assets_path with
                    | (.error e, aidx') =>
                      (.error e,
                        st3.writeBack idx w
                          { m1 with asset_index := some { ainfo with cache := some aidx' } })
                    | (.ok afails, aidx') =>
                      let areqs := afails.map (fun p =>
                        DownloadRequest.assetReq p.1 m.uid (assetUrl st3 p.1)
                          (p.1.path_at st3.assets_path))
                      (.ok (ret ++ areqs),
                        st3.writeBack idx w
                          { m1 with asset_index := some { ainfo with cache := some aidx' } })

/-- The `for what in ... { search_for(...)? }` loops of `continue_search`:
fold `search_for` over a fixed snapshot of a wants list, concatenating the
requests and propagating the first error (with the state mutated so far). -/
def searchMany (os : OS) (fs : FS) :
    List Wants → MetaManager → Except Error (List DownloadRequest) × MetaManager
  | [], st => (.ok [], st)
  | w :: rest, st =>
    match st.search_for os w fs with
    | (.error e, st') => (.error e, st')
    | (.ok reqs, st') =>
      match searchMany os fs rest st' with
      | (.error e, st'') => (.error e, st'')
      | (.ok more, st'') => (.ok (reqs ++ more), st'')

/-- `MetaManager::continue_search` (`meta/mod.rs` lines 87–121): error on an
empty wants list; a single `MetaIndex` request while the registry index is
unloaded; otherwise run `search_for` over a snapshot of `wants`, then over
the snapshot of `extra_wants` taken after that first loop. -/
def MetaManager.continue_search (st : MetaManager) (os : OS) (fs : FS) :
    Except Error SearchResult × MetaManager :=
  match st.wants with
  | [] => (.error .metaNotFound, st)
  | w0 :: _ =>
    match st.index with
    | none => (.ok ⟨[.metaIndexReq st.index_url], [], w0.uid⟩, st)
    | some _ =>
      match searchMany os fs st.wants st with
      | (.error e, st1) => (.error e, st1)
      | (.ok ret1, st1) =>
        match searchMany os fs st1.extra_wants st1 with
        | (.error e, st2) => (.error e, st2)
        | (.ok ret2, st2) => (.ok ⟨ret1 ++ ret2, st2.manifests, w0.uid⟩, st2)

/-- `InstanceGameConfig` (`instance.rs`). -/
structure InstanceGameConfig where
  min : String
  max : String
  width : Nat
  height : Nat
deriving DecidableEq, Repr

/-- `Instance` (`instance.rs`). -/
structure Instance where
  name : String
  version : String
  minecraft_path : String
  assets_path : Option String
  libraries_path : Option String
  natives_path : Option String
  java_opts : List String
  extra_args : List String
  config : InstanceGameConfig
  uid : String
  manifests : List (String × Manifest)
deriving DecidableEq, Repr

/-- `Instance::get_assets_path`: explicit path or `<minecraft>/assets`. -/
def Instance.get_assets_path (i : Instance) : String :=
  match i.assets_path with
  | some p => p
  | none => pathPush i.minecraft_path "assets"

/-- `Instance::get_libraries_path`. -/
def Instance.get_libraries_path (i : Instance) : String :=
  match i.libraries_path with
  | some p => p
  | none => pathPush i.minecraft_path "libraries"

/-- `Instance::get_natives_path`. -/
def Instance.get_natives_path (i : Instance) : String :=
  match i.natives_path with
  | some p => p
  | none => pathPush i.minecraft_path "natives"

/-- `Instance::get_natives`: every library of any manifest with a natives
entry for the host. -/
def Instance.get_natives (i : Instance) (platform : OS) : List Library :=
  (i.manifests.map Prod.snd).flatMap (fun m =>
    m.libraries.filter (fun lib => (alistGet platform.name lib.natives).isSome))

/-- An entry of a natives jar, identified by its archive path. -/
structure ZipEntry where
  name : String
deriving DecidableEq, Repr

/-- The `zip` crate's `ZipFile::enclosed_name` sanitization, modelled from
its documented behaviour: `None` for absolute paths and paths containing a
parent-directory component, otherwise the path itself. -/
def enclosedName (s : String) : Option String :=
  if s.data.head? = some '/' then none
  else if (splitChar '/' s.data).any (fun c => c = ['.', '.']) then none
  else some s

/-- Whether an entry path equals one of the library's `extract.exclude`
entries — the test made inside the exclusion loop of
`Instance::build_natives`. -/
def excludedBy (lib : Library) (p : String) : Bool :=
  match lib.extract with
  | none => false
  | some ex => ex.exclude.any (fun x => p = x)

/-- The output paths written under the natives directory by the entry loop
of `Instance::build_natives` (lines 162–205) for one library's archive.  The
source iterates `extract.exclude` and, on a match, `continue`s — but that
`continue` only advances the inner exclusion loop, so `outpath.push(path)`
still runs and the entry is extracted regardless; the check is therefore
dead code with respect to the produced paths. -/
def buildNativesPaths (nativesPath : String) (lib : Library) (entries : List ZipEntry) :
    List String :=
  entries.filterMap (fun e =>
    match enclosedName e.name with
    | none => none
    | some p =>
      let _dead := excludedBy lib p
      some (pathPush nativesPath p))

/-- The entry loop as the specification words it: entries matching an
`extract.exclude` entry are skipped, every other entry is extracted. -/
def buildNativesPathsSpec (nativesPath : String) (lib : Library) (entries : List ZipEntry) :
    List String :=
  entries.filterMap (fun e =>
    match enclosedName e.name with
    | none => none
    | some p =>
      if excludedBy lib p then none else some (pathPush nativesPath p))

/-- `Auth` (`auth.rs`). -/
inductive Auth where
  | offline (auth_type username : String)
  | mojang (auth_type username token uuid : String)
  | msft (auth_type username token uuid refresh_token : String)
deriving DecidableEq, Repr

/-- `Auth::get_username`.  The `MSFT` arm of the source is
`unimplemented!()` (a panic); it is mapped to `""` here and never exercised
by a claim. -/
def Auth.get_username : Auth → String
  | .offline _ username => username
  | .mojang _ username _ _ => username
  | .msft _ _ _ _ _ => ""

/-- `Auth::get_token`. -/
def Auth.get_token : Auth → Option String
  | .offline _ _ => none
  | .mojang _ _ token _ => some token
  | .msft _ _ token _ _ => some token

/-- `Auth::get_uuid`. -/
def Auth.get_uuid : Auth → Option String
  | .offline _ _ => none
  | .mojang _ _ _ uuid => some uuid
  | .msft _ _ _ uuid _ => some uuid

/-- `Instance::parse_trait`. -/
def Instance.parse_trait (jvm_trait : String) (platform : OS) : Option String :=
  if jvm_trait = "FirstThreadOnMacOS" ∧ platform.name = "osx" then
    some "-XstartOnFirstThread"
  else none

/-- `Instance::get_manifest_extra_jvm_args`. -/
def Instance.get_manifest_extra_jvm_args (i : Instance) (platform : OS) : List String :=
  (i.manifests.map Prod.snd).flatMap (fun m =>
    m.traits.filterMap (fun t => Instance.parse_trait t platform))

/-- The argv elements (`Command::get_args`) assembled by `Java::start`
(`java_wrapper.rs` lines 104–166), in order.  `brand` and `launcherVersion`
stand for the compile-time `CARGO_PKG_NAME` / `CARGO_PKG_VERSION` constants
(the crate's `Cargo.toml` is not part of the sources).  The two
`ok_or(MetaNotFound)?` lookups surface as the error cases.  `build_natives`
returns `get_natives_path()` on success; its filesystem side effects are
outside this argv model. -/
def javaStartParams (brand launcherVersion : String) (platform : OS) (inst : Instance)
    (auth : Auth) : Except Error (List String) :=
  match alistGet inst.uid inst.manifests with
  | none => .error .metaNotFound
  | some m =>
    match m.main_class with
    | none => .error .metaNotFound
    | some mc =>
      match m.asset_index with
      | none => .error .metaNotFound
      | some ai =>
        .ok (inst.get_manifest_extra_jvm_args platform ++ inst.java_opts ++
          ["-Xms" ++ inst.config.min,
           "-Xmx" ++ inst.config.max,
           "-Djava.library.path=" ++ inst.get_natives_path,
           "-Dminecraft.launcher.brand=" ++ brand,
           "-Dminecraft.launcher.version=" ++ launcherVersion,
           "-XX:+UnlockExperimentalVMOptions",
           "-XX:+UseG1GC",
           "-XX:G1NewSizePercent=20",
           "-XX:G1ReservePercent=20",
           "-XX:MaxGCPauseMillis=50",
           "-XX:G1HeapRegionSize=32M",
           mc,
           "--gameDir", inst.minecraft_path,
           "--assetsDir", inst.get_assets_path,
           "--accessToken", auth.get_token.getD "0",
           "--uuid", auth.get_uuid.getD "0",
           "--assetIndex", ai.id,
           "--width", toString inst.config.width,
           "--height", toString inst.config.height,
           "--username", auth.get_username,
           "--version", brand,
           joinString " " inst.extra_args])

/-- The redaction of `Java::start` (lines 168–179): replace the element
after the first `"--accessToken"` with `"<REDACTED>"`.  The source
`unwrap`s the position; argv built by `javaStartParams` always contains the
flag, so the `none` branch is unreachable there. -/
def redactParams (params : List String) : List String :=
  match params.findIdx? (fun s => s = "--accessToken") with
  | none => params
  | some i => params.set (i + 1) "<REDACTED>"

/-- The space-joined diagnostic line printed by `Java::start` (the argv part
of the `debug!` output). -/
def printedDiag (brand launcherVersion : String) (platform : OS) (inst : Instance)
    (auth : Auth) : Except Error String :=
  (javaStartParams brand launcherVersion platform inst auth).map
    (fun p => joinString " " (redactParams p))

/-- The argv elements that precede the `"--accessToken"` flag pushed by
`Java::start` — everything whose value does not depend on the identity's
token. -/
def preTokenArgs (brand launcherVersion : String) (platform : OS) (inst : Instance)
    (mc : String) : List String :=
  inst.get_manifest_extra_jvm_args platform ++ inst.java_opts ++
    ["-Xms" ++ inst.config.min,
     "-Xmx" ++ inst.config.max,
     "-Djava.library.path=" ++ inst.get_natives_path,
     "-Dminecraft.launcher.brand=" ++ brand,
     "-Dminecraft.launcher.version=" ++ launcherVersion,
     "-XX:+UnlockExperimentalVMOptions",
     "-XX:+UseG1GC",
     "-XX:G1NewSizePercent=20",
     "-XX:G1ReservePercent=20",
     "-XX:MaxGCPauseMillis=50",
     "-XX:G1HeapRegionSize=32M",
     mc,
     "--gameDir", inst.minecraft_path,
     "--assetsDir", inst.get_assets_path]

/-- Membership of a uid in a wants list (the inner loops of
`check_requirements`). -/
def wantsHasUid (ws : List Wants) (uid : String) : Bool := ws.any (fun w => w.uid = uid)

/-- Every requirement's uid is already wanted: under this condition
`check_requirements` contributes nothing. -/
def reqsPresent (st : MetaManager) (reqs : List Requirement) : Bool :=
  reqs.all (fun r => wantsHasUid st.wants r.uid || wantsHasUid st.extra_wants r.uid)

/-- All session verification flags of a manifest that
`verify_caching_at`/`search_for` would consult are set: every
required-for-host library, the main jar (whose flag is checked regardless of
rules), and — when an asset index is declared — a loaded cache with every
asset flag set. -/
def Manifest.flagsSettled (m : Manifest) (os : OS) : Bool :=
  m.libraries.all (fun lib => lib.verified || !lib.required_for os) &&
  (match m.main_jar with
   | none => true
   | some j => j.verified) &&
  (match m.asset_index with
   | none => true
   | some a =>
     match a.cache with
     | none => false
     | some aidx => aidx.objects.all (fun p => p.2.verified))

/-- One wanted package is fully settled: the chain
registry package → package index → version → manifest is loaded, all
requirement uids are already wanted, the manifest is recorded in the
`manifests` map under its own uid, and every verification flag is set. -/
def wantSettled (os : OS) (st : MetaManager) (idx : MetaIndex) (w : Wants) : Bool :=
  match idx.get_uid w.uid with
  | .error _ => false
  | .ok pkg =>
    match pkg.index with
    | none => false
    | some pidx =>
      match pidx.find_version w.version with
      | .error _ => false
      | .ok ver =>
        match ver.manifest with
        | none => false
        | some m =>
          reqsPresent st ver.requires && reqsPresent st m.requires &&
          decide (alistGet m.uid st.manifests = some m) && m.flagsSettled os

/-- The resolver fixed point: a loaded registry index, a nonempty wants
list, and every entry of `wants ++ extra_wants` settled. -/
def MetaManager.settled (st : MetaManager) (os : OS) : Bool :=
  match st.index with
  | none => false
  | some idx => !st.wants.isEmpty && (st.wants ++ st.extra_wants).all (wantSettled os st idx)

/-- The file for a library's selected artifact is present with a matching
digest. -/
def Library.validAt (lib : Library) (os : OS) (fs : FS) (library_path : String) : Bool :=
  match lib.select_for os with
  | none => false
  | some d => decide (fs (lib.path_at_for library_path os) = .okFile d.sha1)

/-- A library the caching verifier will pass over without emitting a
failure: already flagged, not required for the host, or valid on disk. -/
def Library.passiveOrValid (lib : Library) (os : OS) (fs : FS) (library_path : String) : Bool :=
  lib.verified || !lib.required_for os || lib.validAt os fs library_path

/-- The asset's content-addressed file is present with a matching digest. -/
def Asset.validAt (a : Asset) (fs : FS) (assets_path : String) : Bool :=
  decide (fs (a.path_at assets_path) = .okFile a.hash)

/-- The main jar will pass the caching verifier silently. -/
def Manifest.jarOkB (m : Manifest) (os : OS) (fs : FS) (library_path : String) : Bool :=
  match m.main_jar with
  | none => true
  | some j => j.verified || j.validAt os fs library_path

/-- The asset side will emit no request: either no asset index is declared,
or its cache is loaded and every asset is flagged or valid on disk. -/
def Manifest.assetsOkB (m : Manifest) (fs : FS) (assets_path : String) : Bool :=
  match m.asset_index with
  | none => true
  | some a =>
    match a.cache with
    | none => false
    | some aidx => aidx.objects.all (fun p => p.2.verified || p.2.validAt fs assets_path)

/-- Every file the planner would check for this manifest is present and
valid (or already flagged as verified this session). -/
def Manifest.allFilesValid (m : Manifest) (os : OS) (fs : FS)
    (library_path assets_path : String) : Bool :=
  m.libraries.all (fun lib => lib.passiveOrValid os fs library_path) &&
  m.jarOkB os fs library_path && m.assetsOkB fs assets_path

/-- One wanted package is fully resolved (metadata all loaded, requirement
uids already wanted) with every expected file valid on disk. -/
def wantGood (os : OS) (fs : FS) (st : MetaManager) (idx : MetaIndex) (w : Wants) : Bool :=
  match idx.get_uid w.uid with
  | .error _ => false
  | .ok pkg =>
    match pkg.index with
    | none => false
    | some pidx =>
      match pidx.find_version w.version with
      | .error _ => false
      | .ok ver =>
        match ver.manifest with
        | none => false
        | some m =>
          reqsPresent st ver.requires && reqsPresent st m.requires &&
          m.allFilesValid os fs st.library_path st.assets_path

/-- A fully-resolved manifest set (uids de-duplicated, as the specification
words it) whose expected files are all valid on disk. -/
def MetaManager.allGood (st : MetaManager) (os : OS) (fs : FS) : Bool :=
  match st.index with
  | none => false
  | some idx =>
    !st.wants.isEmpty &&
    decide (((st.wants ++ st.extra_wants).map (fun w => w.uid)).Nodup) &&
    (st.wants ++ st.extra_wants).all (wantGood os fs st idx)

/-- Whether an individual verification error is one the callers recover from
by re-downloading. -/
def benignError (e : Error) : Bool := e = .libraryMissing || e = .libraryInvalidHash

/-- The failure entry `Manifest::verify_at` records for one library. -/
def failOf (fs : FS) (path : String) (os : OS) (lib : Library) : Option (Library × Error) :=
  if lib.required_for os then
    match lib.verify_at fs path os with
    | .ok _ => none
    | .error e => some (lib, e)
  else none

/-- The full failure list `Manifest::verify_at` returns when no fatal error
interrupts it: the failing required libraries in order, then the main jar. -/
def expectedFails (m : Manifest) (fs : FS) (path : String) (os : OS) :
    List (Library × Error) :=
  m.libraries.filterMap (failOf fs path os) ++
    (match m.main_jar with
     | none => []
     | some jar =>
       match jar.verify_at fs path os with
       | .ok _ => []
       | .error e => [(jar, e)])

/-- A concrete natives library whose `extract.exclude` names `META-INF`,
for evaluating the extraction loop. -/
def natLib : Library :=
  { name := ⟨"org.x", "n", "1", []⟩
    downloads := ⟨⟨⟨[]⟩, 0, ""⟩, [("natives-linux", ⟨⟨[1]⟩, 0, "u"⟩)]⟩
    natives := [("linux", "natives-linux")]
    extract := some ⟨["META-INF"]⟩
    rules := []
    verified := false }

/-- A path segment that `PathBuf::push` treats plainly: nonempty and neither
beginning nor ending with `/`. -/
def goodSeg (g : List Char) : Prop :=
  g ≠ [] ∧ g.head? ≠ some '/' ∧ g.getLast? ≠ some '/'

instance (g : List Char) : Decidable (goodSeg g) := by
  unfold goodSeg; infer_instance

/-- A library already flagged as verified this session, for evaluating the
planner on a settled state. -/
def vfLib : Library :=
  { name := ⟨"g", "a", "1", []⟩
    downloads := ⟨⟨⟨[1]⟩, 0, "u"⟩, []⟩
    natives := []
    extract := none
    rules := []
    verified := true }

/-- A fully loaded manifest whose only library is `vfLib`. -/
def vfManifest : Manifest :=
  { traits := [], asset_index := none, libraries := [vfLib], main_class := none
    main_jar := none, minecraft_arguments := none, name := "mc", order := 0
    release_time := "", requires := [], release_type := "", uid := "mc"
    version := "1" }

/-- The required library of the mismatched-hash scenario: expected digest
`[1]`, unverified, no rules. -/
def badLib : Library :=
  { name := ⟨"g", "b", "1", []⟩
    downloads := ⟨⟨⟨[1]⟩, 0, "u"⟩, []⟩
    natives := []
    extract := none
    rules := []
    verified := false }

/-- A fully loaded manifest whose only library is `badLib`. -/
def badManifest : Manifest :=
  { traits := [], asset_index := none, libraries := [badLib], main_class := none
    main_jar := none, minecraft_arguments := none, name := "mc", order := 0
    release_time := "", requires := [], release_type := "", uid := "mc"
    version := "1" }

/-- The loaded version entry carrying a manifest. -/
def chainVer (m : Manifest) : PackageVersion :=
  { release_time := "", requires := [], sha256 := ⟨[]⟩, release_type := none
    version := "1", manifest := some m }

/-- The loaded package index for uid `mc` with a single version. -/
def chainPidx (m : Manifest) : PackageIndex :=
  { format_version := 1, name := "mc", uid := "mc", versions := [chainVer m] }

/-- The loaded registry package for uid `mc`. -/
def chainPkg (m : Manifest) : MetaIndexPackage :=
  { name := "mc", sha256 := ⟨[]⟩, uid := "mc", index := some (chainPidx m) }

/-- A registry index holding just the `mc` package. -/
def chainIndex (m : Manifest) : MetaIndex :=
  { format_version := 1, packages := [chainPkg m] }

/-- A resolver state wanting `mc 1` with the chain for manifest `m` loaded. -/
def chainState (m : Manifest) : MetaManager :=
  { library_path := "lib", assets_path := "assets", base_url := "b"
    assets_url := none, wants := [⟨"mc", "1", none⟩], extra_wants := []
    manifests := [("mc", m)], index := some (chainIndex m) }

/-- A filesystem holding `badLib`'s jar with the wrong digest `[2]`. -/
def badFs : FS := fun p =>
  if p = badLib.path_at_for "lib" ⟨"linux", none⟩ then .okFile ⟨[2]⟩ else .missing

/-- An asset-index pointer for the launch fixtures. -/
def c9Ai : AssetIndexInfo :=
  { id := "ai", sha1 := ⟨[]⟩, size := 0, total_size := 0, url := "", cache := none }

/-- A manifest carrying a main class and an asset index, as `Java::start`
requires. -/
def c9Manifest : Manifest :=
  { traits := [], asset_index := some c9Ai, libraries := [], main_class := some "Main"
    main_jar := none, minecraft_arguments := none, name := "mc", order := 0
    release_time := "", requires := [], release_type := "", uid := "mc"
    version := "1" }

/-- An instance whose user-supplied `java_opts` smuggle in an
`--accessToken` element ahead of the real one. -/
def c9Inst : Instance :=
  { name := "i", version := "1", minecraft_path := "mc", assets_path := some "a"
    libraries_path := none, natives_path := some "n"
    java_opts := ["--accessToken", "sneaky"], extra_args := []
    config := ⟨"1m", "2m", 100, 50⟩, uid := "mc"
    manifests := [("mc", c9Manifest)] }

/-- The same instance with benign `java_opts`. -/
def c9CleanInst : Instance :=
  { name := "i", version := "1", minecraft_path := "mc", assets_path := some "a"
    libraries_path := none, natives_path := some "n"
    java_opts := [], extra_args := []
    config := ⟨"1m", "2m", 100, 50⟩, uid := "mc"
    manifests := [("mc", c9Manifest)] }

/-! ## Theorems -/

/-- C10: calling `continue_search()` on a `MetaManager` whose wants list is
empty returns `Err(MetaNotFound)` and leaves the resolver state (index,
wants, extra_wants, manifests — the whole manager) unchanged. -/
theorem c10_continue_search_empty_wants (st : MetaManager) (os : OS) (fs : FS)
    (h : st.wants = []) :
    st.continue_search os fs = (.error .metaNotFound, st) := by
  unfold MetaManager.continue_search
  rw [h]

/-- Witness for C10: a freshly created manager (no `search` call yet). -/
theorem c10_witness :
    (⟨"lib", "assets", "http://meta", none, [], [], [], none⟩ : MetaManager).wants = [] ∧
    MetaManager.continue_search ⟨"lib", "assets", "http://meta", none, [], [], [], none⟩
        ⟨"linux", none⟩ (fun _ => .missing) =
      (.error .metaNotFound, ⟨"lib", "assets", "http://meta", none, [], [], [], none⟩) :=
  ⟨rfl, c10_continue_search_empty_wants _ _ _ rfl⟩

/-- C4 (amended): with empty rules `required_for` is true for every host;
and appending a `disallow` rule to a **nonempty** rules list never changes
`required_for`.  (Appending a `disallow` rule to an empty rules list flips
the result to `false`, because the empty-rules default no longer applies —
see the counterexample.) -/
theorem c4_rules_disallow (lib : Library) (os : OS) (r : Rule)
    (hr : r.action = RuleAction.disallow) :
    (lib.rules = [] → lib.required_for os = true) ∧
    (lib.rules ≠ [] →
      ({ lib with rules := lib.rules ++ [r] } : Library).required_for os =
        lib.required_for os) := by
  constructor
  · intro h
    simp [Library.required_for, h]
  · intro h
    have hne : lib.rules ++ [r] ≠ [] := by simp
    simp only [Library.required_for, if_neg h, if_neg hne]
    rw [List.foldl_append]
    simp [hr]

/-- Counterexample for C4 as stated: a library with empty rules is required
on linux, but appending a `disallow` rule makes `required_for` false. -/
theorem c4_counterexample :
    Library.required_for
      ⟨⟨"a", "b", "1", []⟩, ⟨⟨⟨[]⟩, 0, ""⟩, []⟩, [], none, [], false⟩ ⟨"linux", none⟩ = true ∧
    Library.required_for
      ⟨⟨"a", "b", "1", []⟩, ⟨⟨⟨[]⟩, 0, ""⟩, []⟩, [], none,
        [] ++ [⟨RuleAction.disallow, ⟨"osx", none⟩⟩], false⟩ ⟨"linux", none⟩ = false := by
  decide

/-- Witness for C4 at a library with one `allow osx` rule. -/
theorem c4_witness :
    (⟨RuleAction.disallow, ⟨"windows", none⟩⟩ : Rule).action = RuleAction.disallow ∧
    ((⟨⟨"a", "b", "1", []⟩, ⟨⟨⟨[]⟩, 0, ""⟩, []⟩, [], none,
        [⟨RuleAction.allow, ⟨"osx", none⟩⟩], false⟩ : Library).rules = [] →
      Library.required_for
        ⟨⟨"a", "b", "1", []⟩, ⟨⟨⟨[]⟩, 0, ""⟩, []⟩, [], none,
          [⟨RuleAction.allow, ⟨"osx", none⟩⟩], false⟩ ⟨"osx", none⟩ = true) ∧
    ((⟨⟨"a", "b", "1", []⟩, ⟨⟨⟨[]⟩, 0, ""⟩, []⟩, [], none,
        [⟨RuleAction.allow, ⟨"osx", none⟩⟩], false⟩ : Library).rules ≠ [] →
      Library.required_for
        { (⟨⟨"a", "b", "1", []⟩, ⟨⟨⟨[]⟩, 0, ""⟩, []⟩, [], none,
            [⟨RuleAction.allow, ⟨"osx", none⟩⟩], false⟩ : Library) with
          rules := [⟨RuleAction.allow, ⟨"osx", none⟩⟩] ++
            [⟨RuleAction.disallow, ⟨"windows", none⟩⟩] } ⟨"osx", none⟩ =
      Library.required_for
        ⟨⟨"a", "b", "1", []⟩, ⟨⟨⟨[]⟩, 0, ""⟩, []⟩, [], none,
          [⟨RuleAction.allow, ⟨"osx", none⟩⟩], false⟩ ⟨"osx", none⟩) :=
  ⟨rfl, c4_rules_disallow _ _ _ rfl⟩

/-- C1 (evaluation at the failing input): with `wants = [a@1]` and empty
`extra_wants`, a requirement list `[a, b]` yields **no** new wants — the
source returns early at the already-wanted `a`, dropping `b` even though
`b` is wanted nowhere.  The claim (and §4.5 of the specification) require
`Wants{uid: b, version: 2}` to be pushed. -/
theorem c1_check_requirements_drops_later :
    check_requirements [⟨"a", "1", none⟩] [] [⟨none, "1", "a"⟩, ⟨none, "2", "b"⟩] = [] ∧
    wantsHasUid [⟨"a", "1", none⟩] "b" = false ∧
    wantsHasUid ([] : List Wants) "b" = false := by decide

/-- C3 (evaluation at the failing input): an archive entry equal to the
`extract.exclude` element `META-INF` is still written under the natives
directory by the entry loop of `build_natives`, while the behaviour the
claim describes would omit it. -/
theorem c3_excluded_entry_still_extracted :
    excludedBy natLib "META-INF" = true ∧
    buildNativesPaths "natives" natLib [⟨"META-INF"⟩, ⟨"x.so"⟩] =
      ["natives/META-INF", "natives/x.so"] ∧
    buildNativesPathsSpec "natives" natLib [⟨"META-INF"⟩, ⟨"x.so"⟩] = ["natives/x.so"] := by
  decide

theorem hexVal_isSome (c : Char) : (hexVal c).isSome = isHexDigit c := by
  unfold hexVal isHexDigit
  split_ifs with h1 h2 h3 <;> simp_all

theorem hexDecodeList_some_spec :
    ∀ (l : List Char) (bs : List Nat), hexDecodeList l = some bs →
      l.length = 2 * bs.length ∧ ∀ c ∈ l, isHexDigit c = true
  | [], bs => by
    intro h
    simp [hexDecodeList] at h
    subst h
    simp
  | [a], bs => by
    intro h
    simp [hexDecodeList] at h
  | a :: b :: rest, bs => by
    intro h
    unfold hexDecodeList at h
    cases hva : hexVal a <;> cases hvb : hexVal b <;> cases hr : hexDecodeList rest <;>
      rw [hva, hvb, hr] at h <;> simp at h
    rename_i x y r
    have ih := hexDecodeList_some_spec rest r hr
    have hxa : isHexDigit a = true := by rw [← hexVal_isSome, hva]; rfl
    have hxb : isHexDigit b = true := by rw [← hexVal_isSome, hvb]; rfl
    constructor
    · simp only [List.length_cons, ← h, ih.1]
      omega
    · intro c hc
      rcases hc with _ | ⟨_, hc⟩
      · exact hxa
      · rcases hc with _ | ⟨_, hc⟩
        · exact hxb
        · exact ih.2 c hc

theorem hexDecodeList_complete :
    ∀ (n : Nat) (l : List Char), l.length = 2 * n → (∀ c ∈ l, isHexDigit c = true) →
      ∃ bs, hexDecodeList l = some bs ∧ bs.length = n
  | 0, l => by
    intro hl _
    have : l = [] := List.length_eq_zero.mp (by omega)
    subst this
    exact ⟨[], rfl, rfl⟩
  | n + 1, l => by
    intro hl hhex
    match l, hl with
    | a :: b :: rest, hl =>
      have ha : (hexVal a).isSome = true := by
        rw [hexVal_isSome]; exact hhex a (by simp)
      have hb : (hexVal b).isSome = true := by
        rw [hexVal_isSome]; exact hhex b (by simp)
      obtain ⟨x, hx⟩ := Option.isSome_iff_exists.mp ha
      obtain ⟨y, hy⟩ := Option.isSome_iff_exists.mp hb
      have hrl : rest.length = 2 * n := by simp at hl; omega
      obtain ⟨bs, hbs, hlen⟩ := hexDecodeList_complete n rest hrl
        (fun c hc => hhex c (by simp [hc]))
      refine ⟨(16 * x + y) :: bs, ?_, by simp [hlen]⟩
      unfold hexDecodeList
      rw [hx, hy, hbs]

theorem hexDigitLower_isLower (n : Nat) (h : n < 16) :
    isLowerHexDigit (hexDigitLower n) = true := by
  interval_cases n <;> decide

theorem hexEncode_lower (bs : List Nat) :
    ∀ c ∈ (hexEncode bs).data, isLowerHexDigit c = true := by
  intro c hc
  simp only [hexEncode, List.mem_flatten, List.mem_map] at hc
  obtain ⟨sub, ⟨n, _, rfl⟩, hcs⟩ := hc
  simp only [hexEncodeByte, List.mem_cons, List.not_mem_nil, or_false] at hcs
  rcases hcs with rfl | rfl
  · exact hexDigitLower_isLower _ (Nat.mod_lt _ (by norm_num))
  · exact hexDigitLower_isLower _ (Nat.mod_lt _ (by norm_num))

/-- C5 (amended): `Sha1Sum`/`Sha256Sum` parsing succeeds iff the input has
exactly `2·N` characters (40 / 64) and every character is a hex digit **of
either case** (`[0-9a-fA-F]`, as the `hex` crate accepts) — not only
lower-case as claimed; any other input is rejected with an error; and the
`Display` output of a parsed hash is lower-case hex. -/
theorem c5_hash_parse_strictness (s : String) :
    ((Sha1Sum.from_str s).isOk = true ↔
      (s.length = 40 ∧ ∀ c ∈ s.data, isHexDigit c = true)) ∧
    ((Sha256Sum.from_str s).isOk = true ↔
      (s.length = 64 ∧ ∀ c ∈ s.data, isHexDigit c = true)) ∧
    (∀ h, Sha1Sum.from_str s = .ok h →
      ∀ c ∈ h.display.data, isLowerHexDigit c = true) ∧
    (∀ h, Sha256Sum.from_str s = .ok h →
      ∀ c ∈ h.display.data, isLowerHexDigit c = true) := by
  have hlen : s.length = s.data.length := rfl
  refine ⟨?_, ?_, ?_, ?_⟩
  · unfold Sha1Sum.from_str hexDecode
    cases hd : hexDecodeList s.data with
    | none =>
      simp only [Except.isOk, Except.toBool]
      constructor
      · intro h; cases h
      · rintro ⟨h40, hhex⟩
        obtain ⟨bs, hbs, -⟩ := hexDecodeList_complete 20 s.data (by omega) hhex
        rw [hd] at hbs; cases hbs
    | some bs =>
      have hspec := hexDecodeList_some_spec s.data bs hd
      by_cases h20 : bs.length = 20
      · simp only [h20, ne_eq, not_true_eq_false, if_false, if_neg]
        simp only [Except.isOk, Except.toBool]
        constructor
        · intro _
          exact ⟨by omega, hspec.2⟩
        · intro _; trivial
      · simp only [if_pos h20, Except.isOk, Except.toBool]
        constructor
        · intro h; cases h
        · rintro ⟨h40, -⟩
          exact absurd (by omega : bs.length = 20) h20
  · unfold Sha256Sum.from_str hexDecode
    cases hd : hexDecodeList s.data with
    | none =>
      simp only [Except.isOk, Except.toBool]
      constructor
      · intro h; cases h
      · rintro ⟨h64, hhex⟩
        obtain ⟨bs, hbs, -⟩ := hexDecodeList_complete 32 s.data (by omega) hhex
        rw [hd] at hbs; cases hbs
    | some bs =>
      have hspec := hexDecodeList_some_spec s.data bs hd
      by_cases h32 : bs.length = 32
      · simp only [h32, ne_eq, not_true_eq_false, if_false, if_neg]
        simp only [Except.isOk, Except.toBool]
        constructor
        · intro _
          exact ⟨by omega, hspec.2⟩
        · intro _; trivial
      · simp only [if_pos h32, Except.isOk, Except.toBool]
        constructor
        · intro h; cases h
        · rintro ⟨h64, -⟩
          exact absurd (by omega : bs.length = 32) h32
  · intro h hok
    exact fun c hc => hexEncode_lower h.bytes c hc
  · intro h hok
    exact fun c hc => hexEncode_lower h.bytes c hc

/-- Counterexample for C5 as stated: forty upper-case `A`s parse
successfully as a `Sha1Sum`, though `A` is not in `[0-9a-f]`. -/
theorem c5_counterexample :
    (Sha1Sum.from_str ⟨List.replicate 40 'A'⟩).isOk = true ∧
    'A' ∈ (⟨List.replicate 40 'A'⟩ : String).data ∧
    isLowerHexDigit 'A' = false := by decide

/-- Witness for C5 at the string of forty `a`s. -/
theorem c5_witness :
    ((Sha1Sum.from_str ⟨List.replicate 40 'a'⟩).isOk = true ↔
      ((⟨List.replicate 40 'a'⟩ : String).length = 40 ∧
        ∀ c ∈ (⟨List.replicate 40 'a'⟩ : String).data, isHexDigit c = true)) ∧
    ((Sha256Sum.from_str ⟨List.replicate 40 'a'⟩).isOk = true ↔
      ((⟨List.replicate 40 'a'⟩ : String).length = 64 ∧
        ∀ c ∈ (⟨List.replicate 40 'a'⟩ : String).data, isHexDigit c = true)) ∧
    (∀ h, Sha1Sum.from_str ⟨List.replicate 40 'a'⟩ = .ok h →
      ∀ c ∈ h.display.data, isLowerHexDigit c = true) ∧
    (∀ h, Sha256Sum.from_str ⟨List.replicate 40 'a'⟩ = .ok h →
      ∀ c ∈ h.display.data, isLowerHexDigit c = true) :=
  c5_hash_parse_strictness ⟨List.replicate 40 'a'⟩

theorem joinChar_single (sep : Char) (g : List Char) : joinChar sep [g] = g := rfl

theorem joinChar_cons_cons (sep : Char) (g g2 : List Char) (gs : List (List Char)) :
    joinChar sep (g :: g2 :: gs) = g ++ sep :: joinChar sep (g2 :: gs) := rfl

theorem splitChar_cons (sep c : Char) (rest g : List Char) (gs : List (List Char))
    (h : splitChar sep rest = g :: gs) :
    splitChar sep (c :: rest) = if c = sep then [] :: g :: gs else (c :: g) :: gs := by
  unfold splitChar
  rw [h]

theorem splitChar_ne_nil (sep : Char) (l : List Char) : splitChar sep l ≠ [] := by
  induction l with
  | nil => simp [splitChar]
  | cons c rest ih =>
    cases h : splitChar sep rest with
    | nil => exact absurd h ih
    | cons g gs =>
      rw [splitChar_cons sep c rest g gs h]
      split <;> simp

theorem joinChar_splitChar (sep : Char) (l : List Char) :
    joinChar sep (splitChar sep l) = l := by
  induction l with
  | nil => rfl
  | cons c rest ih =>
    cases h : splitChar sep rest with
    | nil => exact absurd h (splitChar_ne_nil sep rest)
    | cons g gs =>
      rw [h] at ih
      rw [splitChar_cons sep c rest g gs h]
      by_cases hc : c = sep
      · rw [if_pos hc, joinChar_cons_cons, ih, hc]
        rfl
      · rw [if_neg hc]
        cases gs with
        | nil =>
          rw [joinChar_single] at ih ⊢
          rw [ih]
        | cons g2 gs2 =>
          rw [joinChar_cons_cons] at ih ⊢
          rw [List.cons_append, ih]

theorem map_replace_eq_joinChar (l : List Char) :
    l.map (fun c => if c = '.' then '/' else c) = joinChar '/' (splitChar '.' l) := by
  induction l with
  | nil => rfl
  | cons c rest ih =>
    cases h : splitChar '.' rest with
    | nil => exact absurd h (splitChar_ne_nil _ _)
    | cons g gs =>
      rw [h] at ih
      rw [splitChar_cons '.' c rest g gs h]
      by_cases hc : c = '.'
      · rw [List.map_cons, if_pos hc, if_pos hc, joinChar_cons_cons, ih]
        rfl
      · rw [List.map_cons, if_neg hc, if_neg hc]
        cases gs with
        | nil =>
          rw [joinChar_single] at ih ⊢
          rw [ih]
        | cons g2 gs2 =>
          rw [joinChar_cons_cons] at ih ⊢
          rw [List.cons_append, ih]

theorem joinString_data (sep : Char) (gs : List (List Char)) :
    (joinString ⟨[sep]⟩ (gs.map (fun g => (⟨g⟩ : String)))).data = joinChar sep gs := by
  match gs with
  | [] => rfl
  | [g] => rfl
  | g :: g2 :: gs2 =>
    show ((⟨g⟩ : String) ++ ⟨[sep]⟩ ++ joinString ⟨[sep]⟩ ((g2 :: gs2).map _)).data = _
    rw [String.data_append, String.data_append, joinString_data sep (g2 :: gs2),
      joinChar_cons_cons]
    simp

theorem pushChars_of_good (acc g : List Char) (hacc1 : acc ≠ [])
    (hacc2 : acc.getLast? ≠ some '/') (hg : g.head? ≠ some '/') :
    pushChars acc g = acc ++ '/' :: g := by
  unfold pushChars
  rw [if_neg hg, if_neg hacc1, if_neg hacc2]

theorem pushChars_nil_acc (g : List Char) (hg : g.head? ≠ some '/') :
    pushChars [] g = g := by
  unfold pushChars
  rw [if_neg hg, if_pos rfl]

theorem foldl_pushChars (segs : List (List Char)) :
    ∀ acc : List Char, acc ≠ [] → acc.getLast? ≠ some '/' → (∀ g ∈ segs, goodSeg g) →
      segs.foldl pushChars acc = acc ++ (segs.map (fun g => '/' :: g)).flatten ∧
      segs.foldl pushChars acc ≠ [] ∧
      (segs.foldl pushChars acc).getLast? ≠ some '/' := by
  induction segs with
  | nil =>
    intro acc h1 h2 _
    simpa using ⟨h1, h2⟩
  | cons g rest ih =>
    intro acc h1 h2 hsegs
    obtain ⟨hg1, hg2, hg3⟩ := hsegs g (by simp)
    have hpush : pushChars acc g = acc ++ '/' :: g := pushChars_of_good acc g h1 h2 hg2
    have hne : acc ++ '/' :: g ≠ [] := by simp
    have hlast : (acc ++ '/' :: g).getLast? ≠ some '/' := by
      rw [List.getLast?_append_of_ne_nil acc (by simp)]
      cases g with
      | nil => exact absurd rfl hg1
      | cons c cs =>
        rw [List.getLast?_cons_cons]
        exact hg3
    have := ih (acc ++ '/' :: g) hne hlast (fun g' hg' => hsegs g' (by simp [hg']))
    refine ⟨?_, ?_, ?_⟩
    · rw [List.foldl_cons, hpush, this.1]
      simp
    · rw [List.foldl_cons, hpush]
      exact this.2.1
    · rw [List.foldl_cons, hpush]
      exact this.2.2

theorem joinChar_eq_flatten (sep : Char) (g : List Char) (gs : List (List Char)) :
    joinChar sep (g :: gs) = g ++ (gs.map (fun x => sep :: x)).flatten := by
  induction gs generalizing g with
  | nil => simp [joinChar_single]
  | cons g2 gs2 ih =>
    rw [joinChar_cons_cons, ih g2]
    simp

theorem foldl_pathPush_data (segs : List (List Char)) :
    ∀ p : String,
      (segs.foldl (fun acc seg => pathPush acc ⟨seg⟩) p).data = segs.foldl pushChars p.data := by
  induction segs with
  | nil => intro p; rfl
  | cons g rest ih =>
    intro p
    rw [List.foldl_cons, List.foldl_cons, ih]
    rfl

theorem base_path_at_empty_data (n : LibraryName)
    (hns : ∀ g ∈ splitChar '.' n.namespace_.data, goodSeg g)
    (hname : goodSeg n.name.data) (hver : goodSeg n.version.data) :
    (n.base_path_at "").data =
      joinChar '/' (splitChar '.' n.namespace_.data) ++
        '/' :: n.name.data ++ '/' :: n.version.data ∧
    (n.base_path_at "").data ≠ [] ∧
    ((n.base_path_at "").data).getLast? ≠ some '/' := by
  unfold LibraryName.base_path_at
  obtain ⟨s0, srest, hsegs⟩ : ∃ s0 srest, splitChar '.' n.namespace_.data = s0 :: srest := by
    cases h : splitChar '.' n.namespace_.data with
    | nil => exact absurd h (splitChar_ne_nil _ _)
    | cons a b => exact ⟨a, b, rfl⟩
  rw [hsegs] at hns ⊢
  obtain ⟨h01, h02, h03⟩ := hns s0 (by simp)
  have hfold0 : (((s0 :: srest).foldl (fun acc seg => pathPush acc ⟨seg⟩) "").data)
      = (s0 :: srest).foldl pushChars [] := foldl_pathPush_data _ _
  have hstep : (s0 :: srest).foldl pushChars [] = srest.foldl pushChars s0 := by
    rw [List.foldl_cons, pushChars_nil_acc s0 h02]
  have hrest := foldl_pushChars srest s0 h01 h03 (fun g hg => hns g (by simp [hg]))
  have hbase : (((s0 :: srest).foldl (fun acc seg => pathPush acc ⟨seg⟩) "").data)
      = joinChar '/' (s0 :: srest) := by
    rw [hfold0, hstep, hrest.1, joinChar_eq_flatten]
  have hbase_ne : (((s0 :: srest).foldl (fun acc seg => pathPush acc ⟨seg⟩) "").data) ≠ [] := by
    rw [hfold0, hstep]; exact hrest.2.1
  have hbase_last :
      ((((s0 :: srest).foldl (fun acc seg => pathPush acc ⟨seg⟩) "").data)).getLast? ≠
        some '/' := by
    rw [hfold0, hstep]; exact hrest.2.2
  have hpush1 : (pathPush ((s0 :: srest).foldl (fun acc seg => pathPush acc ⟨seg⟩) "")
      n.name).data = (((s0 :: srest).foldl (fun acc seg => pathPush acc ⟨seg⟩) "").data)
        ++ '/' :: n.name.data :=
    pushChars_of_good _ _ hbase_ne hbase_last hname.2.1
  have hne1 : (pathPush ((s0 :: srest).foldl (fun acc seg => pathPush acc ⟨seg⟩) "")
      n.name).data ≠ [] := by rw [hpush1]; simp
  have hlast1 : ((pathPush ((s0 :: srest).foldl (fun acc seg => pathPush acc ⟨seg⟩) "")
      n.name).data).getLast? ≠ some '/' := by
    rw [hpush1, List.getLast?_append_of_ne_nil _ (by simp)]
    cases hn : n.name.data with
    | nil => exact absurd hn hname.1
    | cons c cs =>
      have := hname.2.2
      rw [hn] at this
      rw [List.getLast?_cons_cons]
      exact this
  have hpush2 : (pathPush (pathPush ((s0 :: srest).foldl
      (fun acc seg => pathPush acc ⟨seg⟩) "") n.name) n.version).data =
      ((pathPush ((s0 :: srest).foldl (fun acc seg => pathPush acc ⟨seg⟩) "") n.name).data)
        ++ '/' :: n.version.data :=
    pushChars_of_good _ _ hne1 hlast1 hver.2.1
  refine ⟨?_, ?_, ?_⟩
  · rw [hpush2, hpush1, hbase]
  · rw [hpush2]; simp
  · rw [hpush2, List.getLast?_append_of_ne_nil _ (by simp)]
    cases hv : n.version.data with
    | nil => exact absurd hv hver.1
    | cons c cs =>
      have := hver.2.2
      rw [hv] at this
      rw [List.getLast?_cons_cons]
      exact this

theorem jarName_head (n : LibraryName) (hname : goodSeg n.name.data) :
    (n.jarName.data).head? ≠ some '/' := by
  unfold LibraryName.jarName
  split
  · rw [String.data_append, String.data_append, String.data_append, String.data_append,
      String.data_append]
    rw [List.head?_append_of_ne_nil _ (by simp [hname.1]),
      List.head?_append_of_ne_nil _ (by simp [hname.1]),
      List.head?_append_of_ne_nil _ (by simp [hname.1]),
      List.head?_append_of_ne_nil _ (by simp [hname.1]),
      List.head?_append_of_ne_nil _ hname.1]
    exact hname.2.1
  · rw [String.data_append, String.data_append, String.data_append]
    rw [List.head?_append_of_ne_nil _ (by simp [hname.1]),
      List.head?_append_of_ne_nil _ (by simp [hname.1]),
      List.head?_append_of_ne_nil _ hname.1]
    exact hname.2.1

/-- C8 (amended): splitting on `:` with at least three parts always parses,
and `Display` round-trips to the exact input; fewer than three parts fail
with `LibraryInvalidName`; and `path_at("")` is exactly
`<namespace with '.'→'/'>/<name>/<version>/<name>-<version>[-<extras>].jar`
**provided** the namespace's `.`-separated segments, the name and the
version are nonempty and neither begin nor end with `/` (otherwise
`PathBuf::push` collapses or rebases components and the formula fails — see
the counterexample). -/
theorem c8_coordinate_roundtrip_and_path (s : String) :
    ((splitChar ':' s.data).length < 3 →
      LibraryName.from_str s = .error .libraryInvalidName) ∧
    (3 ≤ (splitChar ':' s.data).length →
      ∃ n, LibraryName.from_str s = .ok n ∧ n.display = s) ∧
    (∀ n : LibraryName,
      (∀ g ∈ splitChar '.' n.namespace_.data, goodSeg g) →
      goodSeg n.name.data → goodSeg n.version.data →
      n.path_at "" = n.specPathAt) := by
  refine ⟨?_, ?_, ?_⟩
  · intro hlen
    unfold LibraryName.from_str
    match hs : splitChar ':' s.data, hlen with
    | [], _ => rfl
    | [a], _ => rfl
    | [a, b], _ => rfl
    | a :: b :: c :: rest, hlen =>
      exact absurd hlen (by simp only [List.length_cons]; omega)
  · intro hlen
    match hs : splitChar ':' s.data, hlen with
    | a :: b :: c :: rest, _ =>
      refine ⟨⟨⟨a⟩, ⟨b⟩, ⟨c⟩, rest.map (fun l => (⟨l⟩ : String))⟩, ?_, ?_⟩
      · unfold LibraryName.from_str
        rw [hs]
        rfl
      · apply String.ext
        have hjoin : joinChar ':' (a :: b :: c :: rest) = s.data := by
          rw [← hs, joinChar_splitChar]
        unfold LibraryName.display
        cases hrest : rest with
        | nil =>
          rw [if_neg (by simp [hrest])]
          rw [String.data_append, String.data_append, String.data_append,
            String.data_append]
          rw [hrest] at hjoin
          rw [joinChar_cons_cons, joinChar_cons_cons, joinChar_single] at hjoin
          rw [← hjoin]
          simp
        | cons r rs =>
          dsimp only
          rw [if_pos (by simp)]
          rw [String.data_append, String.data_append, String.data_append,
            String.data_append, String.data_append, String.data_append]
          have hjs : (joinString ":" (List.map (fun l => (⟨l⟩ : String)) (r :: rs))).data =
              joinChar ':' (r :: rs) := joinString_data ':' (r :: rs)
          rw [hjs]
          rw [hrest] at hjoin
          rw [joinChar_cons_cons, joinChar_cons_cons, joinChar_cons_cons] at hjoin
          rw [← hjoin]
          simp
  · intro n hns hname hver
    apply String.ext
    unfold LibraryName.path_at LibraryName.specPathAt
    have hbase := base_path_at_empty_data n hns hname hver
    have hpush : (pathPush (n.base_path_at "") n.jarName).data =
        (n.base_path_at "").data ++ '/' :: n.jarName.data :=
      pushChars_of_good _ _ hbase.2.1 hbase.2.2 (jarName_head n hname)
    rw [hpush, hbase.1]
    rw [String.data_append, String.data_append, String.data_append, String.data_append,
      String.data_append, String.data_append]
    rw [show ((⟨n.namespace_.data.map (fun c => if c = '.' then '/' else c)⟩ : String)).data
        = n.namespace_.data.map (fun c => if c = '.' then '/' else c) from rfl]
    rw [map_replace_eq_joinChar]
    have hslash : ("/" : String).data = ['/'] := rfl
    simp [hslash, List.append_assoc]

/-- Counterexample for C8 as stated: `".a:n:v"` has three `:`-parts and
parses, but `path_at("")` is `a/n/v/n-v.jar` (the empty namespace segment
contributes nothing to the `PathBuf`), while the claim's formula prescribes
`/a/n/v/n-v.jar`. -/
theorem c8_counterexample :
    LibraryName.from_str ".a:n:v" = .ok ⟨".a", "n", "v", []⟩ ∧
    LibraryName.path_at ⟨".a", "n", "v", []⟩ "" = "a/n/v/n-v.jar" ∧
    LibraryName.specPathAt ⟨".a", "n", "v", []⟩ = "/a/n/v/n-v.jar" ∧
    LibraryName.path_at ⟨".a", "n", "v", []⟩ "" ≠ LibraryName.specPathAt ⟨".a", "n", "v", []⟩ := by
  refine ⟨rfl, by decide, by decide, by decide⟩

/-- Witness for C8 at `"com.mojang:minecraft:1.18.1:client"` (the test
vector of the source's own unit test). -/
theorem c8_witness :
    (((splitChar ':' ("com.mojang:minecraft:1.18.1:client" : String).data).length < 3 →
      LibraryName.from_str "com.mojang:minecraft:1.18.1:client" =
        .error .libraryInvalidName) ∧
    (3 ≤ (splitChar ':' ("com.mojang:minecraft:1.18.1:client" : String).data).length →
      ∃ n, LibraryName.from_str "com.mojang:minecraft:1.18.1:client" = .ok n ∧
        n.display = "com.mojang:minecraft:1.18.1:client") ∧
    (∀ n : LibraryName,
      (∀ g ∈ splitChar '.' n.namespace_.data, goodSeg g) →
      goodSeg n.name.data → goodSeg n.version.data →
      n.path_at "" = n.specPathAt)) ∧
    LibraryName.path_at ⟨"com.mojang", "minecraft", "1.18.1", ["client"]⟩ "" =
      "com/mojang/minecraft/1.18.1/minecraft-1.18.1-client.jar" :=
  ⟨c8_coordinate_roundtrip_and_path "com.mojang:minecraft:1.18.1:client", by decide⟩

theorem benignError_iff (e : Error) :
    benignError e = true ↔ (e = .libraryMissing ∨ e = .libraryInvalidHash) := by
  cases e <;> simp [benignError]

theorem libsVerify_spec (fs : FS) (path : String) (os : OS) :
    ∀ libs : List Library,
      ((∀ lib ∈ libs, lib.required_for os = true →
          ∀ e, lib.verify_at fs path os = .error e → benignError e = true) →
        libsVerify fs path os libs = .ok (libs.filterMap (failOf fs path os))) ∧
      (∀ l, libsVerify fs path os libs = .ok l → ∀ p ∈ l, benignError p.2 = true) ∧
      (∀ e, libsVerify fs path os libs = .error e → benignError e = false ∧
        ∃ lib ∈ libs, lib.required_for os = true ∧ lib.verify_at fs path os = .error e) := by
  intro libs
  induction libs with
  | nil =>
    refine ⟨fun _ => rfl, ?_, ?_⟩
    · intro l h p hp
      simp only [libsVerify] at h
      cases h
      simp at hp
    · intro e h
      simp [libsVerify] at h
  | cons lib rest ih =>
    by_cases hreq : lib.required_for os
    · cases hv : lib.verify_at fs path os with
      | ok u =>
        have hrec : libsVerify fs path os (lib :: rest) = libsVerify fs path os rest := by
          simp only [libsVerify, hreq, if_true, hv]
        have hfail : failOf fs path os lib = none := by
          simp only [failOf, hreq, if_true, hv]
        refine ⟨?_, ?_, ?_⟩
        · intro hben
          rw [hrec, List.filterMap_cons, hfail]
          exact ih.1 (fun l hl => hben l (by simp [hl]))
        · intro l h
          rw [hrec] at h
          exact ih.2.1 l h
        · intro e h
          rw [hrec] at h
          obtain ⟨hb, lib', hmem, hr, hv'⟩ := ih.2.2 e h
          exact ⟨hb, lib', by simp [hmem], hr, hv'⟩
      | error e =>
        by_cases hben : benignError e = true
        · have hrec : libsVerify fs path os (lib :: rest) =
              (libsVerify fs path os rest).map (fun l => (lib, e) :: l) := by
            obtain he | he := (benignError_iff e).mp hben <;> subst he <;>
              simp only [libsVerify, hreq, if_true, hv]
          have hfail : failOf fs path os lib = some (lib, e) := by
            obtain he | he := (benignError_iff e).mp hben <;> subst he <;>
              simp only [failOf, hreq, if_true, hv]
          refine ⟨?_, ?_, ?_⟩
          · intro hb
            rw [hrec, ih.1 (fun l hl => hb l (by simp [hl])), List.filterMap_cons, hfail]
            rfl
          · intro l h
            rw [hrec] at h
            cases hr : libsVerify fs path os rest with
            | ok l' =>
              rw [hr] at h
              simp only [Except.map] at h
              cases h
              intro p hp
              rcases List.mem_cons.mp hp with rfl | hp'
              · exact hben
              · exact ih.2.1 l' hr p hp'
            | error e' =>
              rw [hr] at h
              simp only [Except.map] at h
              cases h
          · intro e' h
            rw [hrec] at h
            cases hr : libsVerify fs path os rest with
            | ok l' =>
              rw [hr] at h
              simp only [Except.map] at h
              cases h
            | error e2 =>
              rw [hr] at h
              simp only [Except.map] at h
              cases h
              obtain ⟨hb, lib', hmem, hr', hv'⟩ := ih.2.2 _ hr
              exact ⟨hb, lib', by simp [hmem], hr', hv'⟩
        · have hrec : libsVerify fs path os (lib :: rest) = .error e := by
            obtain he : benignError e = false := by simpa using hben
            cases e <;> simp_all [libsVerify, benignError]
          refine ⟨?_, ?_, ?_⟩
          · intro hb
            exact absurd (hb lib (by simp) hreq e hv) hben
          · intro l h
            rw [hrec] at h
            cases h
          · intro e' h
            rw [hrec] at h
            cases h
            exact ⟨by simpa using hben, lib, by simp, hreq, hv⟩
    · have hrec : libsVerify fs path os (lib :: rest) = libsVerify fs path os rest := by
        simp [libsVerify, hreq]
      have hfail : failOf fs path os lib = none := by
        simp [failOf, hreq]
      refine ⟨?_, ?_, ?_⟩
      · intro hben
        rw [hrec, List.filterMap_cons, hfail]
        exact ih.1 (fun l hl => hben l (by simp [hl]))
      · intro l h
        rw [hrec] at h
        exact ih.2.1 l h
      · intro e h
        rw [hrec] at h
        obtain ⟨hb, lib', hmem, hr, hv'⟩ := ih.2.2 e h
        exact ⟨hb, lib', by simp [hmem], hr, hv'⟩

/-- A required library failing with a non-benign error forces the library
loop of `Manifest::verify_at` to abort with an `Err` (the first such error
encountered), never an `Ok`. -/
theorem libsVerify_aborts (fs : FS) (path : String) (os : OS) :
    ∀ libs : List Library, ∀ lib ∈ libs, lib.required_for os = true →
      ∀ e, lib.verify_at fs path os = .error e → benignError e = false →
      ∃ e', libsVerify fs path os libs = .error e' ∧ benignError e' = false
  | [] => by intro lib hmem; cases hmem
  | l0 :: rest => by
    intro lib hmem hreq e hv hb
    rcases List.mem_cons.mp hmem with rfl | hmem'
    · have hrec : libsVerify fs path os (lib :: rest) = .error e := by
        unfold libsVerify
        rw [if_pos hreq, hv]
        cases e <;> first | rfl | simp [benignError] at hb
      exact ⟨e, hrec, hb⟩
    · by_cases hreq0 : l0.required_for os = true
      · cases hv0 : l0.verify_at fs path os with
        | ok u =>
          obtain ⟨e', hr, hb'⟩ := libsVerify_aborts fs path os rest lib hmem' hreq e hv hb
          have hrec : libsVerify fs path os (l0 :: rest) = .error e' := by
            unfold libsVerify
            rw [if_pos hreq0, hv0, hr]
          exact ⟨e', hrec, hb'⟩
        | error e0 =>
          cases hbe0 : benignError e0 with
          | true =>
            obtain ⟨e', hr, hb'⟩ := libsVerify_aborts fs path os rest lib hmem' hreq e hv hb
            have hrec : libsVerify fs path os (l0 :: rest) = .error e' := by
              unfold libsVerify
              rw [if_pos hreq0, hv0]
              obtain h1 | h1 := (benignError_iff e0).mp hbe0 <;> subst h1 <;>
                rw [hr] <;> rfl
            exact ⟨e', hrec, hb'⟩
          | false =>
            have hrec : libsVerify fs path os (l0 :: rest) = .error e0 := by
              unfold libsVerify
              rw [if_pos hreq0, hv0]
              cases e0 <;> first | rfl | simp [benignError] at hbe0
            exact ⟨e0, hrec, hbe0⟩
      · obtain ⟨e', hr, hb'⟩ := libsVerify_aborts fs path os rest lib hmem' hreq e hv hb
        have hrec : libsVerify fs path os (l0 :: rest) = .error e' := by
          unfold libsVerify
          rw [if_neg hreq0, hr]
        exact ⟨e', hrec, hb'⟩

/-- C7: during a verification pass (`Manifest::verify_at`), every library
failing with `LibraryMissing` or `LibraryInvalidHash` is collected into the
returned list — exactly the required libraries that individually fail, in
order, then the main jar — rather than aborting the pass, while any other
error (I/O failure, unsupported selection) aborts the pass and is propagated
as `Err`, and is then some failing artifact's own error.  The four conjuncts:
(1) all failures benign ⟹ `Ok` with the full collected list; (2) an `Ok`
list holds only benign errors; (3) a returned `Err` is non-benign and is a
failing artifact's own error; (4) a required library or the main jar failing
with a non-benign error forces the pass to return an `Err` (itself
non-benign) — it is never skipped into an `Ok`. -/
theorem c7_verify_at_aggregates (m : Manifest) (fs : FS) (path : String) (os : OS) :
    ((∀ lib ∈ m.libraries, lib.required_for os = true →
        ∀ e, lib.verify_at fs path os = .error e → benignError e = true) →
      (∀ jar, m.main_jar = some jar →
        ∀ e, jar.verify_at fs path os = .error e → benignError e = true) →
      m.verify_at fs path os = .ok (expectedFails m fs path os)) ∧
    (∀ l, m.verify_at fs path os = .ok l → ∀ p ∈ l, benignError p.2 = true) ∧
    (∀ e, m.verify_at fs path os = .error e → benignError e = false ∧
      ((∃ lib ∈ m.libraries, lib.required_for os = true ∧
          lib.verify_at fs path os = .error e) ∨
        (∃ jar, m.main_jar = some jar ∧ jar.verify_at fs path os = .error e))) ∧
    (((∃ lib ∈ m.libraries, lib.required_for os = true ∧
          ∃ e, lib.verify_at fs path os = .error e ∧ benignError e = false) ∨
        (∃ jar, m.main_jar = some jar ∧
          ∃ e, jar.verify_at fs path os = .error e ∧ benignError e = false)) →
      ∃ e', m.verify_at fs path os = .error e' ∧ benignError e' = false) := by
  have hlibs := libsVerify_spec fs path os m.libraries
  refine ⟨?_, ?_, ?_, ?_⟩
  · intro hben hjar
    unfold Manifest.verify_at expectedFails
    rw [hlibs.1 hben]
    cases hj : m.main_jar with
    | none => simp
    | some jar =>
      cases hv : jar.verify_at fs path os with
      | ok u => simp [hv]
      | error e =>
        obtain he | he := (benignError_iff e).mp (hjar jar hj e hv) <;> subst he <;>
          simp [hv]
  · intro l h p hp
    unfold Manifest.verify_at at h
    cases hl : libsVerify fs path os m.libraries with
    | error e => simp only [hl] at h; cases h
    | ok fails =>
      simp only [hl] at h
      cases hj : m.main_jar with
      | none =>
        simp only [hj] at h
        cases h
        exact hlibs.2.1 _ hl p hp
      | some jar =>
        simp only [hj] at h
        cases hv : jar.verify_at fs path os with
        | ok u =>
          simp only [hv] at h
          cases h
          exact hlibs.2.1 _ hl p hp
        | error e =>
          simp only [hv] at h
          cases e <;> cases h
          all_goals
            rcases List.mem_append.mp hp with hp' | hp'
            · exact hlibs.2.1 _ hl p hp'
            · simp at hp'
              rw [hp']
              rfl
  · intro e h
    unfold Manifest.verify_at at h
    cases hl : libsVerify fs path os m.libraries with
    | error e' =>
      simp only [hl] at h
      cases h
      obtain ⟨hb, lib, hmem, hr, hv⟩ := hlibs.2.2 _ hl
      exact ⟨hb, Or.inl ⟨lib, hmem, hr, hv⟩⟩
    | ok fails =>
      simp only [hl] at h
      cases hj : m.main_jar with
      | none => simp only [hj] at h; cases h
      | some jar =>
        simp only [hj] at h
        cases hv : jar.verify_at fs path os with
        | ok u => simp only [hv] at h; cases h
        | error e' =>
          simp only [hv] at h
          cases e' <;> cases h
          all_goals exact ⟨rfl, Or.inr ⟨jar, rfl, hv⟩⟩
  · intro hcase
    rcases hcase with ⟨lib, hmem, hreq, e, hv, hb⟩ | ⟨jar, hj, e, hv, hb⟩
    · obtain ⟨e', hl, hb'⟩ := libsVerify_aborts fs path os m.libraries lib hmem hreq e hv hb
      refine ⟨e', ?_, hb'⟩
      unfold Manifest.verify_at
      rw [hl]
    · cases hl : libsVerify fs path os m.libraries with
      | error e2 =>
        obtain ⟨hb2, _⟩ := hlibs.2.2 _ hl
        refine ⟨e2, ?_, hb2⟩
        unfold Manifest.verify_at
        rw [hl]
      | ok fails =>
        refine ⟨e, ?_, hb⟩
        unfold Manifest.verify_at
        rw [hl, hj]
        dsimp only
        rw [hv]
        cases e <;> first | rfl | simp [benignError] at hb

theorem c7_witness :
    Manifest.verify_at
        ⟨[], none, [⟨⟨"a", "b", "1", []⟩, ⟨⟨⟨[1]⟩, 0, "u"⟩, []⟩, [], none, [], false⟩],
          none, none, none, "n", 0, "t", [], "r", "u", "1"⟩
        (fun _ => .missing) "lp" ⟨"linux", none⟩ =
      .ok (expectedFails
        ⟨[], none, [⟨⟨"a", "b", "1", []⟩, ⟨⟨⟨[1]⟩, 0, "u"⟩, []⟩, [], none, [], false⟩],
          none, none, none, "n", 0, "t", [], "r", "u", "1"⟩
        (fun _ => .missing) "lp" ⟨"linux", none⟩) ∧
    expectedFails
        ⟨[], none, [⟨⟨"a", "b", "1", []⟩, ⟨⟨⟨[1]⟩, 0, "u"⟩, []⟩, [], none, [], false⟩],
          none, none, none, "n", 0, "t", [], "r", "u", "1"⟩
        (fun _ => .missing) "lp" ⟨"linux", none⟩ =
      [(⟨⟨"a", "b", "1", []⟩, ⟨⟨⟨[1]⟩, 0, "u"⟩, []⟩, [], none, [], false⟩,
        .libraryMissing)] ∧
    (∃ e', Manifest.verify_at
        ⟨[], none, [⟨⟨"a", "b", "1", []⟩, ⟨⟨⟨[1]⟩, 0, "u"⟩, []⟩, [], none, [], false⟩],
          none, none, none, "n", 0, "t", [], "r", "u", "1"⟩
        (fun _ => .readError) "lp" ⟨"linux", none⟩ = .error e' ∧
      benignError e' = false) :=
  ⟨(c7_verify_at_aggregates _ _ "lp" ⟨"linux", none⟩).1
      (by intro lib hl hr e hv
          simp only [List.mem_singleton] at hl
          subst hl
          cases hv
          rfl)
      (by intro jar hj e hv; cases hj),
    by decide,
    (c7_verify_at_aggregates
        ⟨[], none, [⟨⟨"a", "b", "1", []⟩, ⟨⟨⟨[1]⟩, 0, "u"⟩, []⟩, [], none, [], false⟩],
          none, none, none, "n", 0, "t", [], "r", "u", "1"⟩
        (fun _ => .readError) "lp" ⟨"linux", none⟩).2.2.2
      (Or.inl ⟨⟨⟨"a", "b", "1", []⟩, ⟨⟨⟨[1]⟩, 0, "u"⟩, []⟩, [], none, [], false⟩,
        by decide, by decide, .ioErr, rfl, by decide⟩)⟩

theorem get_uid_ok_iff (idx : MetaIndex) (uid : String) (pkg : MetaIndexPackage) :
    idx.get_uid uid = .ok pkg ↔ idx.packages.find? (fun p => p.uid = uid) = some pkg := by
  unfold MetaIndex.get_uid
  cases h : idx.packages.find? (fun p => p.uid = uid) <;> simp

theorem find_version_ok_iff (pidx : PackageIndex) (version : String) (ver : PackageVersion) :
    pidx.find_version version = .ok ver ↔
      pidx.versions.find? (fun v => v.version = version) = some ver := by
  unfold PackageIndex.find_version
  cases h : pidx.versions.find? (fun v => v.version = version) <;> simp

theorem check_requirements_eq_nil (wants extra : List Wants) (reqs : List Requirement)
    (h : reqs.all
      (fun r => wantsHasUid wants r.uid || wantsHasUid extra r.uid) = true) :
    check_requirements wants extra reqs = [] := by
  cases reqs with
  | nil => rfl
  | cons r rest =>
    have hr := (List.all_eq_true.mp h) r (by simp)
    unfold wantsHasUid at hr
    unfold check_requirements
    rw [if_pos hr]

theorem alistInsert_self {α : Type} (k : String) (v : α) :
    ∀ l : List (String × α), alistGet k l = some v → alistInsert k v l = l
  | [] => by intro h; simp [alistGet] at h
  | (k', v') :: rest => by
    intro h
    unfold alistGet at h
    unfold alistInsert
    by_cases hk : k' = k
    · subst hk
      rw [if_pos rfl] at h ⊢
      injection h with h
      rw [h]
    · rw [if_neg hk] at h ⊢
      rw [alistInsert_self k v rest h]

theorem setManifestVersions_self (version : String) (m : Manifest) :
    ∀ (versions : List PackageVersion) (ver : PackageVersion),
      versions.find? (fun v => v.version = version) = some ver → ver.manifest = some m →
      setManifestVersions version m versions = versions
  | [] => by intro ver h _; simp at h
  | v :: rest => by
    intro ver h hm
    unfold setManifestVersions
    by_cases hv : v.version = version
    · rw [if_pos hv]
      rw [List.find?_cons] at h
      simp [hv] at h
      subst h
      rw [← hm]
    · rw [if_neg hv]
      rw [List.find?_cons] at h
      simp [hv] at h
      rw [setManifestVersions_self version m rest ver h hm]

theorem setManifestPackages_self (uid version : String) (m : Manifest) :
    ∀ (packages : List MetaIndexPackage) (pkg : MetaIndexPackage) (pidx : PackageIndex)
      (ver : PackageVersion),
      packages.find? (fun p => p.uid = uid) = some pkg → pkg.index = some pidx →
      pidx.versions.find? (fun v => v.version = version) = some ver → ver.manifest = some m →
      setManifestPackages uid version m packages = packages
  | [] => by intro pkg pidx ver h _ _ _; simp at h
  | p :: rest => by
    intro pkg pidx ver h hpi hfv hm
    unfold setManifestPackages
    by_cases hp : p.uid = uid
    · rw [if_pos hp]
      rw [List.find?_cons] at h
      simp [hp] at h
      subst h
      rw [hpi]
      simp only [Option.map_some']
      rw [setManifestVersions_self version m pidx.versions ver hfv hm]
      rw [show (some { pidx with versions := pidx.versions } : Option PackageIndex) =
        p.index from hpi.symm]
    · rw [if_neg hp]
      rw [List.find?_cons] at h
      simp [hp] at h
      rw [setManifestPackages_self uid version m rest pkg pidx ver h hpi hfv hm]

theorem libsVerifyCaching_settled (fs : FS) (path : String) (os : OS) :
    ∀ libs : List Library,
      (∀ lib ∈ libs, (lib.verified || !lib.required_for os) = true) →
      libsVerifyCaching fs path os libs = (.ok [], libs)
  | [] => fun _ => rfl
  | lib :: rest => by
    intro h
    have hl := h lib (by simp)
    have hcond : ¬(¬lib.verified = true ∧ lib.required_for os = true) := by
      simp only [Bool.or_eq_true, Bool.not_eq_true'] at hl
      rintro ⟨h1, h2⟩
      rcases hl with hl | hl
      · exact h1 hl
      · rw [h2] at hl; cases hl
    unfold libsVerifyCaching
    rw [if_neg hcond,
      libsVerifyCaching_settled fs path os rest (fun l hx => h l (by simp [hx]))]

theorem assetsVerifyCaching_settled (fs : FS) (at_ : String) :
    ∀ objs : List (String × Asset),
      (∀ p ∈ objs, p.2.verified = true) →
      assetsVerifyCaching fs at_ objs = (.ok [], objs)
  | [] => fun _ => rfl
  | (k, a) :: rest => by
    intro h
    have ha : a.verified = true := h (k, a) (by simp)
    have hva : a.verify_caching_at fs at_ = (.ok (), a) := by
      unfold Asset.verify_caching_at
      rw [if_pos ha]
    unfold assetsVerifyCaching
    rw [hva, assetsVerifyCaching_settled fs at_ rest (fun p hp => h p (by simp [hp]))]

theorem verify_caching_settled (m : Manifest) (fs : FS) (path : String) (os : OS)
    (h : m.flagsSettled os = true) :
    m.verify_caching_at fs path os = (.ok [], m) := by
  obtain ⟨mt, mai, mlibs, mmc, mmj, mma, mn, mo, mrt, mrq, mrl, mu, mv⟩ := m
  unfold Manifest.flagsSettled at h
  simp only [Bool.and_eq_true] at h
  obtain ⟨⟨h1, h2⟩, h3⟩ := h
  cases mmj with
  | none =>
    simp [Manifest.verify_caching_at,
      libsVerifyCaching_settled fs path os mlibs (List.all_eq_true.mp h1)]
  | some j =>
    simp only at h2
    simp [Manifest.verify_caching_at,
      libsVerifyCaching_settled fs path os mlibs (List.all_eq_true.mp h1), h2]

theorem writeBack_self (st : MetaManager) (idx : MetaIndex) (w : Wants) (m : Manifest)
    (pkg : MetaIndexPackage) (pidx : PackageIndex) (ver : PackageVersion)
    (hidx : st.index = some idx)
    (hfind : idx.packages.find? (fun p => p.uid = w.uid) = some pkg)
    (hpi : pkg.index = some pidx)
    (hfv : pidx.versions.find? (fun v => v.version = w.version) = some ver)
    (hm : ver.manifest = some m)
    (hmm : alistGet m.uid st.manifests = some m) :
    st.writeBack idx w m = st := by
  unfold MetaManager.writeBack
  rw [setManifestPackages_self w.uid w.version m idx.packages pkg pidx ver hfind hpi hfv hm]
  rw [alistInsert_self m.uid m st.manifests hmm]
  rw [show ({ idx with packages := idx.packages } : MetaIndex) = idx from rfl]
  rw [← hidx]

theorem search_for_settled (os : OS) (fs : FS) (st : MetaManager) (idx : MetaIndex)
    (w : Wants) (hidx : st.index = some idx) (hw : wantSettled os st idx w = true) :
    st.search_for os w fs = (.ok [], st) := by
  unfold wantSettled at hw
  cases hg : idx.get_uid w.uid with
  | error e => rw [hg] at hw; simp at hw
  | ok pkg =>
    rw [hg] at hw
    dsimp only at hw
    cases hpi : pkg.index with
    | none => rw [hpi] at hw; simp at hw
    | some pidx =>
      rw [hpi] at hw
      dsimp only at hw
      cases hfv : pidx.find_version w.version with
      | error e => rw [hfv] at hw; simp at hw
      | ok ver =>
        rw [hfv] at hw
        dsimp only at hw
        cases hm : ver.manifest with
        | none => rw [hm] at hw; simp at hw
        | some m =>
          rw [hm] at hw
          dsimp only at hw
          simp only [Bool.and_eq_true, decide_eq_true_eq] at hw
          obtain ⟨⟨⟨hr1, hr2⟩, hmm⟩, hfl⟩ := hw
          unfold MetaManager.search_for
          simp only [hidx, hg, hpi, hfv, hm]
          rw [check_requirements_eq_nil _ _ _ hr1]
          simp only [List.append_nil]
          rw [check_requirements_eq_nil _ _ _ hr2]
          simp only [List.append_nil]
          rw [alistInsert_self m.uid m st.manifests hmm]
          rw [verify_caching_settled m fs st.library_path os hfl]
          simp only [requestsOfFails]
          rw [show MetaManager.mk st.library_path st.assets_path st.base_url st.assets_url
            st.wants st.extra_wants st.manifests (some idx) = st by rw [← hidx]]
          have hwb := writeBack_self st idx w m pkg pidx ver hidx
            ((get_uid_ok_iff idx w.uid pkg).mp hg) hpi
            ((find_version_ok_iff pidx w.version ver).mp hfv) hm hmm
          have hset : m.flagsSettled os = true := hfl
          unfold Manifest.flagsSettled at hset
          simp only [Bool.and_eq_true] at hset
          obtain ⟨-, h3⟩ := hset
          cases ha : m.asset_index with
          | none => rw [hwb]
          | some ainfo =>
            rw [ha] at h3
            dsimp only at h3 ⊢
            cases hc : ainfo.cache with
            | none => rw [hc] at h3; simp at h3
            | some aidx =>
              rw [hc] at h3
              dsimp only at h3 ⊢
              unfold AssetIndex.verify_caching_at
              rw [assetsVerifyCaching_settled fs st.assets_path aidx.objects
                (List.all_eq_true.mp h3)]
              simp only [List.map_nil, List.append_nil]
              have hm2 : ({ m with asset_index := some { ainfo with cache := some aidx } } :
                  Manifest) = m := by
                rw [← hc]
                show ({ m with asset_index := some ainfo } : Manifest) = m
                rw [← ha]
              rw [hm2, hwb]

theorem searchMany_settled (os : OS) (fs : FS) (st : MetaManager) (idx : MetaIndex)
    (hidx : st.index = some idx) :
    ∀ ws : List Wants, (∀ w ∈ ws, wantSettled os st idx w = true) →
      searchMany os fs ws st = (.ok [], st)
  | [] => fun _ => rfl
  | w :: rest => by
    intro h
    unfold searchMany
    rw [search_for_settled os fs st idx w hidx (h w (by simp))]
    dsimp only
    rw [searchMany_settled os fs st idx hidx rest (fun x hx => h x (by simp [hx]))]
    rfl

/-- C2: once the resolver is at its fixed point — registry index loaded,
every wanted package's index, version and manifest loaded, every
requirement's uid already wanted, manifests recorded, every verification
flag set — `continue_search()` returns a `SearchResult` with an empty
request list and the manager's manifests, leaves the state exactly
unchanged (so repeated calls return the same), and its outcome does not
consult the filesystem at all (no re-hashing of verified artifacts). -/
theorem c2_fixed_point_idempotent (st : MetaManager) (os : OS) (fs : FS)
    (h : st.settled os = true) :
    (st.continue_search os fs).2 = st ∧
    (∃ r, (st.continue_search os fs).1 = .ok r ∧ r.requests = [] ∧
      r.manifests = st.manifests) ∧
    (∀ fs' : FS, st.continue_search os fs' = st.continue_search os fs) := by
  unfold MetaManager.settled at h
  cases hidx : st.index with
  | none => rw [hidx] at h; cases h
  | some idx =>
    rw [hidx] at h
    simp only [Bool.and_eq_true] at h
    obtain ⟨hne, hall⟩ := h
    cases hws : st.wants with
    | nil => rw [hws] at hne; cases hne
    | cons w0 rest =>
      have hall' := List.all_eq_true.mp hall
      have hwants : ∀ w ∈ st.wants, wantSettled os st idx w = true :=
        fun w hw => hall' w (List.mem_append_left _ hw)
      have hextra : ∀ w ∈ st.extra_wants, wantSettled os st idx w = true :=
        fun w hw => hall' w (List.mem_append_right _ hw)
      have hmain : ∀ fs2 : FS,
          st.continue_search os fs2 = (.ok ⟨[], st.manifests, w0.uid⟩, st) := by
        intro fs2
        unfold MetaManager.continue_search
        simp only [hws, hidx]
        rw [show searchMany os fs2 (w0 :: rest) st = (.ok [], st) by
          rw [← hws]
          exact searchMany_settled os fs2 st idx hidx st.wants hwants]
        dsimp only
        rw [searchMany_settled os fs2 st idx hidx st.extra_wants hextra]
        rfl
      refine ⟨by rw [hmain fs], ⟨⟨[], st.manifests, w0.uid⟩, by rw [hmain fs], rfl, rfl⟩,
        fun fs' => by rw [hmain fs', hmain fs]⟩

theorem verify_at_of_validAt (lib : Library) (fs : FS) (path : String) (os : OS)
    (h : lib.validAt os fs path = true) : lib.verify_at fs path os = .ok () := by
  unfold Library.validAt at h
  cases hsel : lib.select_for os with
  | none => rw [hsel] at h; cases h
  | some d =>
    rw [hsel] at h
    simp only [decide_eq_true_eq] at h
    unfold Library.verify_at
    rw [hsel, h]
    simp

theorem libsVerifyCaching_valid (fs : FS) (path : String) (os : OS) :
    ∀ libs : List Library,
      libs.all (fun lib => lib.passiveOrValid os fs path) = true →
      ∃ libs', libsVerifyCaching fs path os libs = (.ok [], libs')
  | [] => fun _ => ⟨[], rfl⟩
  | lib :: rest => by
    intro h
    simp only [List.all_cons, Bool.and_eq_true] at h
    obtain ⟨hl, hrest⟩ := h
    obtain ⟨rest', hr⟩ := libsVerifyCaching_valid fs path os rest hrest
    by_cases hcond : ¬lib.verified = true ∧ lib.required_for os = true
    · have hval : lib.validAt os fs path = true := by
        unfold Library.passiveOrValid at hl
        simp only [Bool.or_eq_true, Bool.not_eq_true'] at hl
        rcases hl with (hv | hnr) | hval
        · exact absurd hv hcond.1
        · rw [hcond.2] at hnr; cases hnr
        · exact hval
      refine ⟨{ lib with verified := true } :: rest', ?_⟩
      unfold libsVerifyCaching
      rw [if_pos hcond, verify_at_of_validAt lib fs path os hval, hr]
    · refine ⟨lib :: rest', ?_⟩
      unfold libsVerifyCaching
      rw [if_neg hcond, hr]

theorem asset_verify_caching_valid (a : Asset) (fs : FS) (at_ : String)
    (h : (a.verified || a.validAt fs at_) = true) :
    ∃ a', a.verify_caching_at fs at_ = (.ok (), a') := by
  by_cases hv : a.verified = true
  · refine ⟨a, ?_⟩
    unfold Asset.verify_caching_at
    rw [if_pos hv]
  · have hval : a.validAt fs at_ = true := by
      simp only [Bool.or_eq_true] at h
      rcases h with h | h
      · exact absurd h hv
      · exact h
    unfold Asset.validAt at hval
    simp only [decide_eq_true_eq] at hval
    have hok : a.verify_at fs at_ = .ok () := by
      unfold Asset.verify_at
      rw [hval]
      simp
    refine ⟨{ a with verified := true }, ?_⟩
    unfold Asset.verify_caching_at
    rw [if_neg hv, hok]

theorem assetsVerifyCaching_valid (fs : FS) (at_ : String) :
    ∀ objs : List (String × Asset),
      objs.all (fun p => p.2.verified || p.2.validAt fs at_) = true →
      ∃ objs', assetsVerifyCaching fs at_ objs = (.ok [], objs')
  | [] => fun _ => ⟨[], rfl⟩
  | (k, a) :: rest => by
    intro h
    simp only [List.all_cons, Bool.and_eq_true] at h
    obtain ⟨ha, hrest⟩ := h
    obtain ⟨rest', hr⟩ := assetsVerifyCaching_valid fs at_ rest hrest
    obtain ⟨a', hva⟩ := asset_verify_caching_valid a fs at_ ha
    refine ⟨(k, a') :: rest', ?_⟩
    unfold assetsVerifyCaching
    rw [hva, hr]

theorem verify_caching_valid (m : Manifest) (fs : FS) (path : String) (os : OS)
    (h1 : m.libraries.all (fun lib => lib.passiveOrValid os fs path) = true)
    (h2 : m.jarOkB os fs path = true) :
    ∃ m1, m.verify_caching_at fs path os = (.ok [], m1) := by
  obtain ⟨mt, mai, mlibs, mmc, mmj, mma, mn, mo, mrt, mrq, mrl, mu, mv⟩ := m
  simp only at h1
  obtain ⟨libs', hlibs⟩ := libsVerifyCaching_valid fs path os mlibs h1
  unfold Manifest.jarOkB at h2
  cases mmj with
  | none =>
    refine ⟨⟨mt, mai, libs', mmc, none, mma, mn, mo, mrt, mrq, mrl, mu, mv⟩, ?_⟩
    simp [Manifest.verify_caching_at, hlibs]
  | some j =>
    simp only at h2
    by_cases hv : j.verified = true
    · refine ⟨⟨mt, mai, libs', mmc, some j, mma, mn, mo, mrt, mrq, mrl, mu, mv⟩, ?_⟩
      simp [Manifest.verify_caching_at, hlibs, hv]
    · have hval : j.validAt os fs path = true := by
        simp only [Bool.or_eq_true] at h2
        rcases h2 with h2 | h2
        · exact absurd h2 hv
        · exact h2
      refine ⟨⟨mt, mai, libs', mmc, some { j with verified := true }, mma, mn, mo, mrt, mrq,
        mrl, mu, mv⟩, ?_⟩
      simp [Manifest.verify_caching_at, hlibs, hv, verify_at_of_validAt j fs path os hval]

theorem libsVerifyCaching_one_bad (fs : FS) (path : String) (os : OS) (bad : Library)
    (d : LibraryDownload) (dig : Sha1Sum)
    (hbv : bad.verified = false) (hbr : bad.required_for os = true)
    (hsel : bad.select_for os = some d)
    (hfs : fs (bad.path_at_for path os) = .okFile dig) (hdig : dig ≠ d.sha1) :
    ∀ pre : List Library, ∀ post : List Library,
      pre.all (fun lib => lib.passiveOrValid os fs path) = true →
      post.all (fun lib => lib.passiveOrValid os fs path) = true →
      ∃ libs', libsVerifyCaching fs path os (pre ++ bad :: post) =
        (.ok [(bad, .libraryInvalidHash)], libs')
  | [], post => by
    intro _ hpost
    obtain ⟨post', hr⟩ := libsVerifyCaching_valid fs path os post hpost
    have hbad : bad.verify_at fs path os = .error .libraryInvalidHash := by
      unfold Library.verify_at
      rw [hsel, hfs]
      simp [hdig]
    refine ⟨bad :: post', ?_⟩
    rw [List.nil_append]
    unfold libsVerifyCaching
    rw [if_pos (by simp [hbv, hbr]), hbad, hr]
  | p :: pre, post => by
    intro hpre hpost
    simp only [List.all_cons, Bool.and_eq_true] at hpre
    obtain ⟨hp, hpre⟩ := hpre
    obtain ⟨libs', hr⟩ := libsVerifyCaching_one_bad fs path os bad d dig hbv hbr hsel hfs
      hdig pre post hpre hpost
    rw [List.cons_append]
    by_cases hcond : ¬p.verified = true ∧ p.required_for os = true
    · have hval : p.validAt os fs path = true := by
        unfold Library.passiveOrValid at hp
        simp only [Bool.or_eq_true, Bool.not_eq_true'] at hp
        rcases hp with (hv | hnr) | hval
        · exact absurd hv hcond.1
        · rw [hcond.2] at hnr; cases hnr
        · exact hval
      refine ⟨{ p with verified := true } :: libs', ?_⟩
      unfold libsVerifyCaching
      rw [if_pos hcond, verify_at_of_validAt p fs path os hval, hr]
    · refine ⟨p :: libs', ?_⟩
      unfold libsVerifyCaching
      rw [if_neg hcond, hr]

theorem verify_caching_one_bad (m : Manifest) (fs : FS) (path : String) (os : OS)
    (pre post : List Library) (bad : Library) (d : LibraryDownload) (dig : Sha1Sum)
    (hsplit : m.libraries = pre ++ bad :: post)
    (hpre : pre.all (fun lib => lib.passiveOrValid os fs path) = true)
    (hpost : post.all (fun lib => lib.passiveOrValid os fs path) = true)
    (hjar : m.jarOkB os fs path = true)
    (hbv : bad.verified = false) (hbr : bad.required_for os = true)
    (hsel : bad.select_for os = some d)
    (hfs : fs (bad.path_at_for path os) = .okFile dig) (hdig : dig ≠ d.sha1) :
    ∃ m1, m.verify_caching_at fs path os = (.ok [(bad, .libraryInvalidHash)], m1) := by
  obtain ⟨mt, mai, mlibs, mmc, mmj, mma, mn, mo, mrt, mrq, mrl, mu, mv⟩ := m
  simp only at hsplit
  subst hsplit
  obtain ⟨libs', hlibs⟩ := libsVerifyCaching_one_bad fs path os bad d dig hbv hbr hsel hfs
    hdig pre post hpre hpost
  unfold Manifest.jarOkB at hjar
  cases mmj with
  | none =>
    refine ⟨⟨mt, mai, libs', mmc, none, mma, mn, mo, mrt, mrq, mrl, mu, mv⟩, ?_⟩
    simp [Manifest.verify_caching_at, hlibs]
  | some j =>
    simp only at hjar
    by_cases hv : j.verified = true
    · refine ⟨⟨mt, mai, libs', mmc, some j, mma, mn, mo, mrt, mrq, mrl, mu, mv⟩, ?_⟩
      simp [Manifest.verify_caching_at, hlibs, hv]
    · have hval : j.validAt os fs path = true := by
        simp only [Bool.or_eq_true] at hjar
        rcases hjar with h2 | h2
        · exact absurd h2 hv
        · exact h2
      refine ⟨⟨mt, mai, libs', mmc, some { j with verified := true }, mma, mn, mo, mrt, mrq,
        mrl, mu, mv⟩, ?_⟩
      simp [Manifest.verify_caching_at, hlibs, hv, verify_at_of_validAt j fs path os hval]

theorem find?_setManifestPackages_ne (u uid version : String) (m2 : Manifest) :
    ∀ packages : List MetaIndexPackage, u ≠ uid →
      (setManifestPackages uid version m2 packages).find? (fun p => p.uid = u) =
        packages.find? (fun p => p.uid = u)
  | [] => fun _ => rfl
  | p :: rest => by
    intro hne
    unfold setManifestPackages
    by_cases hp : p.uid = uid
    · rw [if_pos hp]
      have hpu : ¬p.uid = u := by rw [hp]; exact fun hc => hne hc.symm
      rw [List.find?_cons, List.find?_cons]
      simp [hpu]
    · rw [if_neg hp]
      rw [List.find?_cons, List.find?_cons]
      by_cases hpu : p.uid = u
      · simp [hpu]
      · have := find?_setManifestPackages_ne u uid version m2 rest hne
        simp [hpu, this]

theorem wantGood_congr (os : OS) (fs : FS) (st st' : MetaManager) (idx idx' : MetaIndex)
    (w : Wants) (hw : st'.wants = st.wants) (he : st'.extra_wants = st.extra_wants)
    (hlp : st'.library_path = st.library_path) (hap : st'.assets_path = st.assets_path)
    (hg : idx'.get_uid w.uid = idx.get_uid w.uid) :
    wantGood os fs st' idx' w = wantGood os fs st idx w := by
  unfold wantGood reqsPresent wantsHasUid
  rw [hg, hw, he, hlp, hap]

theorem search_for_good (os : OS) (fs : FS) (st : MetaManager) (idx : MetaIndex) (w : Wants)
    (hidx : st.index = some idx) (hw : wantGood os fs st idx w = true) :
    (st.search_for os w fs).1 = .ok [] ∧
    ((st.search_for os w fs).2).wants = st.wants ∧
    ((st.search_for os w fs).2).extra_wants = st.extra_wants ∧
    ((st.search_for os w fs).2).library_path = st.library_path ∧
    ((st.search_for os w fs).2).assets_path = st.assets_path ∧
    ∃ idx', ((st.search_for os w fs).2).index = some idx' ∧
      ∀ u, u ≠ w.uid → idx'.get_uid u = idx.get_uid u := by
  unfold wantGood at hw
  cases hg : idx.get_uid w.uid with
  | error e => rw [hg] at hw; simp at hw
  | ok pkg =>
    rw [hg] at hw
    dsimp only at hw
    cases hpi : pkg.index with
    | none => rw [hpi] at hw; simp at hw
    | some pidx =>
      rw [hpi] at hw
      dsimp only at hw
      cases hfv : pidx.find_version w.version with
      | error e => rw [hfv] at hw; simp at hw
      | ok ver =>
        rw [hfv] at hw
        dsimp only at hw
        cases hm : ver.manifest with
        | none => rw [hm] at hw; simp at hw
        | some m =>
          rw [hm] at hw
          dsimp only at hw
          simp only [Bool.and_eq_true] at hw
          obtain ⟨⟨hr1, hr2⟩, hval⟩ := hw
          unfold Manifest.allFilesValid at hval
          simp only [Bool.and_eq_true] at hval
          obtain ⟨⟨hlv, hjv⟩, hav⟩ := hval
          obtain ⟨m1, hver⟩ := verify_caching_valid m fs st.library_path os hlv hjv
          unfold MetaManager.search_for
          simp only [hidx, hg, hpi, hfv, hm]
          rw [check_requirements_eq_nil _ _ _ hr1]
          simp only [List.append_nil]
          rw [check_requirements_eq_nil _ _ _ hr2]
          simp only [List.append_nil]
          rw [hver]
          simp only [requestsOfFails, MetaManager.writeBack]
          unfold Manifest.assetsOkB at hav
          cases ha : m.asset_index with
          | none =>
            dsimp only
            refine ⟨?_, ?_, ?_, ?_, ?_, ⟨_, rfl, ?_⟩⟩
            any_goals trivial
            intro u hu
            unfold MetaIndex.get_uid
            rw [find?_setManifestPackages_ne u w.uid w.version _ idx.packages hu]
          | some ainfo =>
            rw [ha] at hav
            dsimp only at hav ⊢
            cases hc : ainfo.cache with
            | none => rw [hc] at hav; simp at hav
            | some aidx =>
              rw [hc] at hav
              dsimp only at hav ⊢
              obtain ⟨objs', haidx⟩ := assetsVerifyCaching_valid fs st.assets_path
                aidx.objects hav
              unfold AssetIndex.verify_caching_at
              rw [haidx]
              dsimp only
              simp only [List.map_nil, List.append_nil]
              refine ⟨?_, ?_, ?_, ?_, ?_, ⟨_, rfl, ?_⟩⟩
              any_goals trivial
              intro u hu
              unfold MetaIndex.get_uid
              rw [find?_setManifestPackages_ne u w.uid w.version _ idx.packages hu]

theorem searchMany_good (os : OS) (fs : FS) :
    ∀ (ws : List Wants) (st : MetaManager) (idx : MetaIndex),
      st.index = some idx →
      (∀ w ∈ ws, wantGood os fs st idx w = true) →
      (ws.map (fun w => w.uid)).Nodup →
      ∃ st' idx', searchMany os fs ws st = (.ok [], st') ∧ st'.index = some idx' ∧
        st'.wants = st.wants ∧ st'.extra_wants = st.extra_wants ∧
        st'.library_path = st.library_path ∧ st'.assets_path = st.assets_path ∧
        (∀ u, u ∉ ws.map (fun w => w.uid) → idx'.get_uid u = idx.get_uid u)
  | [], st, idx => by
    intro hidx _ _
    exact ⟨st, idx, rfl, hidx, rfl, rfl, rfl, rfl, fun u _ => rfl⟩
  | w :: rest, st, idx => by
    intro hidx hgood hnodup
    simp only [List.map_cons, List.nodup_cons] at hnodup
    obtain ⟨hwnotin, hnodup⟩ := hnodup
    have hw := hgood w (by simp)
    obtain ⟨h1, h2, h3, h4, h5, idx1, h6, h7⟩ := search_for_good os fs st idx w hidx hw
    set st1 := (st.search_for os w fs).2 with hst1
    have hgood1 : ∀ x ∈ rest, wantGood os fs st1 idx1 x = true := by
      intro x hx
      have hxne : x.uid ≠ w.uid := by
        intro hc
        exact hwnotin (hc ▸ List.mem_map_of_mem (fun w => w.uid) hx)
      rw [wantGood_congr os fs st st1 idx idx1 x h2 h3 h4 h5 (h7 x.uid hxne)]
      exact hgood x (by simp [hx])
    obtain ⟨st2, idx2, hrun2, hi2, hw2, he2, hlp2, hap2, hpres2⟩ :=
      searchMany_good os fs rest st1 idx1 h6 hgood1 hnodup
    refine ⟨st2, idx2, ?_, hi2, hw2.trans h2, he2.trans h3, hlp2.trans h4, hap2.trans h5, ?_⟩
    · unfold searchMany
      rw [show st.search_for os w fs = (.ok [], st1) from Prod.ext h1 hst1.symm]
      dsimp only
      rw [hrun2]
      rfl
    · intro u hu
      simp only [List.map_cons, List.mem_cons] at hu
      push_neg at hu
      rw [hpres2 u (by simpa using hu.2)]
      exact h7 u hu.1

/-- **C6.** Planner/verifier round trip (`meta/mod.rs` lines 157–196,
`manifest.rs` lines 84–161).  Part 1: when the state is fully resolved with
every expected file valid on disk (`MetaManager.allGood`), `continue_search`
succeeds with an empty request list — in particular zero `Library` and zero
`Asset` requests.  Part 2: with a single wanted package whose metadata chain
is loaded, all requirement uids already wanted, main jar and assets passing,
and exactly one required library present on disk with a non-matching digest,
`continue_search` emits exactly one request: a `Library` request for that
library's expected path and selected download. -/
theorem c6_planner_round_trip (os : OS) (fs : FS) :
    (∀ st : MetaManager, st.allGood os fs = true →
      ∃ r st', st.continue_search os fs = (.ok r, st') ∧ r.requests = []) ∧
    (∀ (st : MetaManager) (idx : MetaIndex) (w : Wants) (pkg : MetaIndexPackage)
        (pidx : PackageIndex) (ver : PackageVersion) (m : Manifest)
        (pre post : List Library) (bad : Library) (d : LibraryDownload) (dig : Sha1Sum),
      st.wants = [w] → st.extra_wants = [] → st.index = some idx →
      idx.get_uid w.uid = .ok pkg → pkg.index = some pidx →
      pidx.find_version w.version = .ok ver → ver.manifest = some m →
      reqsPresent st ver.requires = true → reqsPresent st m.requires = true →
      m.libraries = pre ++ bad :: post →
      pre.all (fun lib => lib.passiveOrValid os fs st.library_path) = true →
      post.all (fun lib => lib.passiveOrValid os fs st.library_path) = true →
      m.jarOkB os fs st.library_path = true →
      m.assetsOkB fs st.assets_path = true →
      bad.verified = false → bad.required_for os = true →
      bad.select_for os = some d →
      fs (bad.path_at_for st.library_path os) = .okFile dig → dig ≠ d.sha1 →
      ∃ r st', st.continue_search os fs = (.ok r, st') ∧
        r.requests = [.libraryReq (bad.path_at_for st.library_path os) d]) := by
  constructor
  · intro st h
    unfold MetaManager.allGood at h
    cases hidx : st.index with
    | none => rw [hidx] at h; simp at h
    | some idx =>
      rw [hidx] at h
      dsimp only at h
      simp only [Bool.and_eq_true, Bool.not_eq_true', decide_eq_true_eq] at h
      obtain ⟨⟨hne, hnodup⟩, hall⟩ := h
      rw [List.map_append, List.nodup_append] at hnodup
      obtain ⟨hnd1, hnd2, hdisj⟩ := hnodup
      rw [List.all_append, Bool.and_eq_true] at hall
      obtain ⟨hall1, hall2⟩ := hall
      simp only [List.all_eq_true] at hall1 hall2
      obtain ⟨st1, idx1, hrun1, hi1, hw1, he1, hlp1, hap1, hpres1⟩ :=
        searchMany_good os fs st.wants st idx hidx hall1 hnd1
      have hgood2 : ∀ x ∈ st1.extra_wants, wantGood os fs st1 idx1 x = true := by
        intro x hx
        rw [he1] at hx
        have hxnotin : x.uid ∉ st.wants.map (fun w => w.uid) := by
          intro hc
          exact hdisj hc (List.mem_map_of_mem (fun w => w.uid) hx)
        rw [wantGood_congr os fs st st1 idx idx1 x hw1 he1 hlp1 hap1
          (hpres1 x.uid hxnotin)]
        exact hall2 x hx
      have hnd2a : (st1.extra_wants.map (fun w => w.uid)).Nodup := by
        rw [he1]; exact hnd2
      obtain ⟨st2, idx2, hrun2, hi2, hw2, he2, hlp2, hap2, hpres2⟩ :=
        searchMany_good os fs st1.extra_wants st1 idx1 hi1 hgood2 hnd2a
      obtain ⟨w0, rest, hws⟩ : ∃ w0 rest, st.wants = w0 :: rest := by
        cases hcase : st.wants with
        | nil => rw [hcase] at hne; simp at hne
        | cons a b => exact ⟨a, b, rfl⟩
      refine ⟨⟨[] ++ [], st2.manifests, w0.uid⟩, st2, ?_, rfl⟩
      unfold MetaManager.continue_search
      rw [hws] at hrun1 ⊢
      dsimp only
      rw [hidx]
      dsimp only
      rw [hrun1]
      dsimp only
      rw [hrun2]
  · intro st idx w pkg pidx ver m pre post bad d dig hws hex hidx hg hpi hfv hm hr1 hr2
      hsplit hpre hpost hjar hassets hbv hbr hsel hfs hdig
    obtain ⟨m1, hver⟩ := verify_caching_one_bad m fs st.library_path os pre post bad d dig
      hsplit hpre hpost hjar hbv hbr hsel hfs hdig
    have hreq : requestsOfFails st.library_path os [(bad, .libraryInvalidHash)] =
        .ok [.libraryReq (bad.path_at_for st.library_path os) d] := by
      unfold requestsOfFails
      rw [hsel]
      rfl
    obtain ⟨stF, hsf, heF⟩ : ∃ stF, st.search_for os w fs =
        (.ok [.libraryReq (bad.path_at_for st.library_path os) d], stF) ∧
        stF.extra_wants = st.extra_wants := by
      unfold MetaManager.search_for
      simp only [hidx, hg, hpi, hfv, hm]
      rw [check_requirements_eq_nil _ _ _ hr1]
      simp only [List.append_nil]
      rw [check_requirements_eq_nil _ _ _ hr2]
      simp only [List.append_nil]
      rw [hver]
      dsimp only
      rw [hreq]
      dsimp only
      unfold Manifest.assetsOkB at hassets
      cases ha : m.asset_index with
      | none =>
        dsimp only
        exact ⟨_, rfl, rfl⟩
      | some ainfo =>
        rw [ha] at hassets
        dsimp only at hassets ⊢
        cases hc : ainfo.cache with
        | none => rw [hc] at hassets; simp at hassets
        | some aidx =>
          rw [hc] at hassets
          dsimp only at hassets ⊢
          obtain ⟨objs2, haidx⟩ := assetsVerifyCaching_valid fs st.assets_path
            aidx.objects hassets
          unfold AssetIndex.verify_caching_at
          rw [haidx]
          dsimp only
          exact ⟨_, rfl, rfl⟩
    have hsm1 : searchMany os fs [w] st =
        (.ok ([.libraryReq (bad.path_at_for st.library_path os) d] ++ []), stF) := by
      unfold searchMany
      rw [hsf]
      dsimp only
      rfl
    refine ⟨⟨([.libraryReq (bad.path_at_for st.library_path os) d] ++ []) ++ [],
      stF.manifests, w.uid⟩, stF, ?_, rfl⟩
    unfold MetaManager.continue_search
    rw [hws]
    dsimp only
    rw [hidx]
    dsimp only
    rw [hsm1]
    dsimp only
    rw [show stF.extra_wants = ([] : List Wants) from heF.trans hex]
    rfl

theorem c6_planner_round_trip_witness :
    (∃ r st', (chainState vfManifest).continue_search ⟨"linux", none⟩
        (fun _ => FileState.missing) = (.ok r, st') ∧ r.requests = []) ∧
    (∃ r st', (chainState badManifest).continue_search ⟨"linux", none⟩ badFs =
        (.ok r, st') ∧
      r.requests = [.libraryReq
        (badLib.path_at_for (chainState badManifest).library_path ⟨"linux", none⟩)
        badLib.downloads.artifact]) :=
  ⟨(c6_planner_round_trip ⟨"linux", none⟩ (fun _ => FileState.missing)).1
      (chainState vfManifest) (by decide),
   (c6_planner_round_trip ⟨"linux", none⟩ badFs).2 (chainState badManifest)
      (chainIndex badManifest) ⟨"mc", "1", none⟩ (chainPkg badManifest)
      (chainPidx badManifest) (chainVer badManifest) badManifest [] [] badLib
      badLib.downloads.artifact ⟨[2]⟩
      rfl rfl rfl rfl rfl rfl rfl rfl rfl rfl rfl rfl rfl rfl rfl rfl rfl
      (by decide) (by decide)⟩

theorem c2_fixed_point_idempotent_witness :
    ((chainState vfManifest).continue_search ⟨"linux", none⟩
        (fun _ => FileState.missing)).2 = chainState vfManifest ∧
    (∃ r, ((chainState vfManifest).continue_search ⟨"linux", none⟩
        (fun _ => FileState.missing)).1 = .ok r ∧ r.requests = [] ∧
      r.manifests = (chainState vfManifest).manifests) ∧
    (∀ fs' : FS, (chainState vfManifest).continue_search ⟨"linux", none⟩ fs' =
      (chainState vfManifest).continue_search ⟨"linux", none⟩
        (fun _ => FileState.missing)) :=
  c2_fixed_point_idempotent (chainState vfManifest) ⟨"linux", none⟩
    (fun _ => FileState.missing) (by decide)

theorem findIdxAppendCons {α : Type} (p : α → Bool) :
    ∀ (pre : List α), (∀ y ∈ pre, p y = false) → ∀ (x : α), p x = true →
      ∀ tail : List α, (pre ++ x :: tail).findIdx? p = some pre.length
  | [] => by
    intro _ x hx tail
    simp [List.findIdx?_cons, hx]
  | a :: pre => by
    intro h x hx tail
    have ha : p a = false := h a (List.mem_cons_self a pre)
    rw [List.cons_append, List.findIdx?_cons, ha]
    simp only [Bool.false_eq_true, if_false]
    rw [List.findIdx?_succ,
      findIdxAppendCons p pre (fun y hy => h y (List.mem_cons_of_mem a hy)) x hx tail]
    rfl

theorem setAppendAdd {α : Type} (v : α) :
    ∀ (l1 l2 : List α) (n : Nat), (l1 ++ l2).set (l1.length + n) v = l1 ++ l2.set n v
  | [], l2, n => by simp
  | a :: l1, l2, n => by
    have h : (a :: l1).length + n = (l1.length + n) + 1 := by
      simp only [List.length_cons]
      omega
    rw [List.cons_append, h]
    show a :: ((l1 ++ l2).set (l1.length + n) v) = _
    rw [setAppendAdd v l1 l2 n, List.cons_append]

/-- **C9** (amended).  Token redaction in the diagnostic argv of
`Java::start` (`java_wrapper.rs` lines 104–186).  The source redacts the
element after the *first* `"--accessToken"` in the argv; provided no earlier
element (in particular none of the user-controlled `java_opts`) equals
`"--accessToken"`, that first occurrence is the one pushed by `Java::start`
itself, so: the printed diagnostic line is identical for any two identities
agreeing on username and uuid (it does not depend on the token), and the
element immediately following `"--accessToken"` in the redacted argv is
`"<REDACTED>"`.  Without that proviso the property fails (see the
counterexample), because `params.iter().position(...)` finds the smuggled
flag instead. -/
theorem c9_token_redaction (brand lv : String) (platform : OS) (inst : Instance)
    (m : Manifest) (mc : String) (ai : AssetIndexInfo)
    (hm : alistGet inst.uid inst.manifests = some m)
    (hmc : m.main_class = some mc) (hai : m.asset_index = some ai)
    (hnot : "--accessToken" ∉ preTokenArgs brand lv platform inst mc) :
    (∀ a1 a2 : Auth, a1.get_username = a2.get_username → a1.get_uuid = a2.get_uuid →
      printedDiag brand lv platform inst a1 = printedDiag brand lv platform inst a2) ∧
    (∀ a : Auth, ∃ p, javaStartParams brand lv platform inst a = .ok p ∧
      redactParams p = preTokenArgs brand lv platform inst mc ++
        "--accessToken" :: "<REDACTED>" :: "--uuid" :: a.get_uuid.getD "0" ::
        "--assetIndex" :: ai.id :: "--width" :: toString inst.config.width ::
        "--height" :: toString inst.config.height :: "--username" :: a.get_username ::
        "--version" :: brand :: [joinString " " inst.extra_args] ∧
      (redactParams p)[(preTokenArgs brand lv platform inst mc).length + 1]? =
        some "<REDACTED>") := by
  have hp : ∀ a : Auth, javaStartParams brand lv platform inst a =
      .ok (preTokenArgs brand lv platform inst mc ++
        "--accessToken" :: a.get_token.getD "0" :: "--uuid" :: a.get_uuid.getD "0" ::
        "--assetIndex" :: ai.id :: "--width" :: toString inst.config.width ::
        "--height" :: toString inst.config.height :: "--username" :: a.get_username ::
        "--version" :: brand :: [joinString " " inst.extra_args]) := by
    intro a
    unfold javaStartParams
    rw [hm]
    dsimp only
    rw [hmc]
    dsimp only
    rw [hai]
    dsimp only
    unfold preTokenArgs
    simp
  have hnotB : ∀ y ∈ preTokenArgs brand lv platform inst mc,
      (fun s => decide (s = "--accessToken")) y = false := by
    intro y hy
    simp only [decide_eq_false_iff_not]
    intro hc
    exact hnot (hc ▸ hy)
  have hred : ∀ (tok : String) (tail : List String),
      redactParams (preTokenArgs brand lv platform inst mc ++
          "--accessToken" :: tok :: tail) =
        preTokenArgs brand lv platform inst mc ++
          "--accessToken" :: "<REDACTED>" :: tail := by
    intro tok tail
    unfold redactParams
    rw [findIdxAppendCons (fun s => decide (s = "--accessToken"))
      (preTokenArgs brand lv platform inst mc) hnotB "--accessToken" (by simp)
      (tok :: tail)]
    dsimp only
    rw [setAppendAdd "<REDACTED>" (preTokenArgs brand lv platform inst mc)
      ("--accessToken" :: tok :: tail) 1]
    rfl
  refine ⟨?_, ?_⟩
  · intro a1 a2 hu huu
    unfold printedDiag
    rw [hp a1, hp a2]
    simp only [Except.map]
    rw [hred, hred, hu, huu]
  · intro a
    refine ⟨_, hp a, hred _ _, ?_⟩
    rw [hred]
    rw [List.getElem?_append_right (Nat.le_add_right _ 1)]
    simp

/-- The unguarded reading of C9 is false: with `java_opts` smuggling an
`"--accessToken"` element before the one `Java::start` pushes, the redaction
hits the smuggled flag, the real token survives into the printed line, and
two identities differing only in the token print different diagnostics. -/
theorem c9_token_redaction_counterexample :
    (printedDiag "b" "v" ⟨"linux", none⟩ c9Inst (Auth.mojang "m" "u" "t1" "id")).toOption ≠
      (printedDiag "b" "v" ⟨"linux", none⟩ c9Inst (Auth.mojang "m" "u" "t2" "id")).toOption ∧
    ((javaStartParams "b" "v" ⟨"linux", none⟩ c9Inst
        (Auth.mojang "m" "u" "t1" "id")).toOption.map
      (fun p => (redactParams p).contains "t1")) = some true := by
  decide

theorem c9_token_redaction_witness :
    printedDiag "b" "v" ⟨"linux", none⟩ c9CleanInst (Auth.mojang "m" "u" "t1" "id") =
      printedDiag "b" "v" ⟨"linux", none⟩ c9CleanInst (Auth.mojang "m" "u" "t2" "id") ∧
    (∃ p, javaStartParams "b" "v" ⟨"linux", none⟩ c9CleanInst
        (Auth.mojang "m" "u" "t1" "id") = .ok p ∧
      redactParams p = preTokenArgs "b" "v" ⟨"linux", none⟩ c9CleanInst "Main" ++
        "--accessToken" :: "<REDACTED>" :: "--uuid" :: "id" ::
        "--assetIndex" :: c9Ai.id :: "--width" :: "100" ::
        "--height" :: "50" :: "--username" :: "u" ::
        "--version" :: "b" :: [joinString " " ([] : List String)] ∧
      (redactParams p)[(preTokenArgs "b" "v" ⟨"linux", none⟩ c9CleanInst "Main").length
          + 1]? = some "<REDACTED>") :=
  ⟨(c9_token_redaction "b" "v" ⟨"linux", none⟩ c9CleanInst c9Manifest "Main" c9Ai
      rfl rfl rfl (by decide)).1
    (Auth.mojang "m" "u" "t1" "id") (Auth.mojang "m" "u" "t2" "id") rfl rfl,
   (c9_token_redaction "b" "v" ⟨"linux", none⟩ c9CleanInst c9Manifest "Main" c9Ai
      rfl rfl rfl (by decide)).2 (Auth.mojang "m" "u" "t1" "id")⟩

end LibPolyMC
